import Mathlib

/-!
Verification of the FSA motion-builder backend (main.py, main_backup.py,
main_o3.py, main_enhanced.py, ai_utils.py) against its specification.

The development shallowly embeds the claim-relevant parts of the code:

* a backtracking regex matcher over `List Char` mirroring the semantics of
  Python `re.search` (leftmost match, left-first alternation, greedy and
  lazy repetition, `re.IGNORECASE`, `re.DOTALL`) for the exact pattern
  subset occurring in the sources;
* the `parse_defendant_info` field parsers of main.py, main_backup.py and
  main_enhanced.py, as pattern tables consumed by the two nested `for`
  loops of the source;
* the `===X START===(.*?)===X END===` document splitter;
* the per-session event log and the two SSE relay loops
  (`stream_events.event_generator` of main.py and of main_backup.py),
  with polls modelled as atomic steps interleaved with appends;
* the session mutations of `generate_with_o3_research` (main.py and
  main_o3.py) as operation traces, parameterised by the provider
  behaviour and by the point at which an exception may interrupt;
* `web_search` (ai_utils.py and main_o3.py) and the o3 → gpt-4o model
  fallback (`ai_utils.stream_o3_completion`, main_backup.py, main_o3.py),
  with the external HTTP/model outcome as an explicit parameter.
-/

/-! ## Regex engine

Character classes appearing in the source regexes.  `re.IGNORECASE` is in
force for every `parse_defendant_info` pattern, so `[A-Z]` and `[a-z]`
both match any ASCII letter, and `[-cr]` also matches `C` and `R`. -/

inductive CC
  | upperAZ    -- [A-Z]   (under IGNORECASE: any ASCII letter)
  | lowerAZ    -- [a-z]   (under IGNORECASE: any ASCII letter)
  | digit      -- [0-9]
  | wsp        -- \s  (Python: space, \t, \n, \r, \f, \v)
  | wspColon   -- [\s:]
  | dotColon   -- [\.\:]
  | dashcr     -- [-cr]  (under IGNORECASE: -, c, r, C, R)
  | notCommaNL -- [^,\n]
  | anyDot     -- .  under re.DOTALL (matches every character)
  deriving DecidableEq, Repr

def isAsciiLetter (c : Char) : Bool :=
  (('A' ≤ c && c ≤ 'Z') || ('a' ≤ c && c ≤ 'z'))

def isPyWsp (c : Char) : Bool :=
  c = ' ' || c = '\t' || c = '\n' || c = '\x0d' || c = '\x0c' || c = '\x0b'

def ccMatch : CC → Char → Bool
  | .upperAZ, c => isAsciiLetter c
  | .lowerAZ, c => isAsciiLetter c
  | .digit, c => '0' ≤ c && c ≤ '9'
  | .wsp, c => isPyWsp c
  | .wspColon, c => isPyWsp c || c = ':'
  | .dotColon, c => c = '.' || c = ':'
  | .dashcr, c => c = '-' || c = 'c' || c = 'r' || c = 'C' || c = 'R'
  | .notCommaNL, c => !(c = ',' || c = '\n')
  | .anyDot, _ => true

/-- ASCII lower-casing, used to implement `re.IGNORECASE` literals. -/
def lowerA (c : Char) : Char :=
  if 'A' ≤ c && c ≤ 'Z' then Char.ofNat (c.toNat + 32) else c

/-- Regex AST for the subset of constructs used in the repository. -/
inductive RE
  | eps
  | cls (k : CC)
  | lit (c : Char)    -- case-sensitive literal (the splitter patterns)
  | litCI (c : Char)  -- literal under re.IGNORECASE (the parser patterns)
  | seq (a b : RE)
  | alt (a b : RE)
  | star (a : RE)     -- greedy `*`
  | starL (a : RE)    -- lazy `*?`
  deriving DecidableEq, Repr

/-- Matching with exhausted star fuel: stars admit only the empty
repetition.  With adequate fuel this case is never reached, see `mre`. -/
def mre0 : RE → List Char → List (List Char × List Char)
  | .eps, t => [([], t)]
  | .cls _, [] => []
  | .cls k, c :: r => if ccMatch k c then [([c], r)] else []
  | .lit _, [] => []
  | .lit a, c :: r => if c = a then [([c], r)] else []
  | .litCI _, [] => []
  | .litCI a, c :: r => if lowerA c = lowerA a then [([c], r)] else []
  | .seq a b, t =>
      (mre0 a t).flatMap fun p => (mre0 b p.2).map fun q => (p.1 ++ q.1, q.2)
  | .alt a b, t => mre0 a t ++ mre0 b t
  | .star _, t => [([], t)]
  | .starL _, t => [([], t)]

/-- One fuel level of the matcher: `prev` is the matcher at the next-lower
fuel, used for the tail of a star repetition. -/
def mreS (prev : RE → List Char → List (List Char × List Char)) :
    RE → List Char → List (List Char × List Char)
  | .eps, t => [([], t)]
  | .cls _, [] => []
  | .cls k, c :: r => if ccMatch k c then [([c], r)] else []
  | .lit _, [] => []
  | .lit a, c :: r => if c = a then [([c], r)] else []
  | .litCI _, [] => []
  | .litCI a, c :: r => if lowerA c = lowerA a then [([c], r)] else []
  | .seq a b, t =>
      (mreS prev a t).flatMap fun p => (mreS prev b p.2).map fun q => (p.1 ++ q.1, q.2)
  | .alt a b, t => mreS prev a t ++ mreS prev b t
  | .star a, t =>
      (((mreS prev a t).filter fun p => !p.1.isEmpty).flatMap fun p =>
        (prev (.star a) p.2).map fun q => (p.1 ++ q.1, q.2)) ++ [([], t)]
  | .starL a, t =>
      ([], t) :: (((mreS prev a t).filter fun p => !p.1.isEmpty).flatMap fun p =>
        (prev (.starL a) p.2).map fun q => (p.1 ++ q.1, q.2))

/-- All ways a regex can match a prefix of `t`, as `(consumed, rest)` pairs
in backtracking priority order (alternation: left first; greedy star:
longer first; lazy star: shorter first).  The fuel is spent once per star
repetition; a repetition that consumed nothing is cut, as in the Python
engine, and every star body in the source patterns consumes at least one
character, so starting fuel `t.length + 1` makes the fuelled semantics
agree with unbounded backtracking. -/
def mre : Nat → RE → List Char → List (List Char × List Char)
  | 0 => mre0
  | f + 1 => mreS (mre f)

/-- A source pattern.  Every pattern in the repository has exactly one
capture group, so it splits as a prefix part, the group, and a suffix
part. -/
structure Pt where
  pre : RE
  grp : RE
  post : RE
  deriving Repr

/-- One attempt of the backtracking matcher anchored at the head of `t`:
the first full success in priority order, returning the text consumed by
the capture group. -/
def matchAt (p : Pt) (t : List Char) : Option (List Char) :=
  (mre (t.length + 1) p.pre t).findSome? fun q =>
    (mre (q.2.length + 1) p.grp q.2).findSome? fun g =>
      if (mre (g.2.length + 1) p.post g.2).isEmpty then none else some g.1

/-- `re.search`: try successive start positions left to right (the
leftmost match wins) and return group 1 of the first match. -/
def reSearch (p : Pt) : List Char → Option (List Char)
  | [] => matchAt p []
  | c :: r =>
    match matchAt p (c :: r) with
    | some g => some g
    | none => reSearch p r

/-- A literal word, each character under `re.IGNORECASE`. -/
def lits (s : String) : RE := s.toList.foldr (fun c r => .seq (.litCI c) r) .eps

/-- A case-sensitive literal word (for the splitter, which does not use
`re.IGNORECASE`). -/
def litx (s : String) : RE := s.toList.foldr (fun c r => .seq (.lit c) r) .eps

/-- Greedy `+` as `a a*`. -/
def plus (a : RE) : RE := .seq a (.star a)

/-- Greedy `?` as `(a|ε)`. -/
def opt (a : RE) : RE := .alt a .eps

/-! ## The parser pattern tables

Transliterations of the `patterns` dictionaries of
`parse_defendant_info` in main.py (3 fields), main_backup.py (8 fields)
and main_enhanced.py (8 fields), in dictionary insertion order. -/

/-- Group `([A-Z][a-z]+(?:\s+[A-Z][a-z]+)*)`. -/
def nameGrp : RE :=
  .seq (.cls .upperAZ) (.seq (plus (.cls .lowerAZ))
    (.star (.seq (plus (.cls .wsp)) (.seq (.cls .upperAZ) (plus (.cls .lowerAZ))))))

/-- Group `([0-9]{1,2}:[0-9]{2}[-cr]+[0-9]+)`. -/
def caseGrp : RE :=
  .seq (.seq (.cls .digit) (opt (.cls .digit)))
    (.seq (.litCI ':')
      (.seq (.seq (.cls .digit) (.cls .digit))
        (.seq (plus (.cls .dashcr)) (plus (.cls .digit)))))

/-- Group `([0-9]{1,2}\/[0-9]{1,2}\/[0-9]{4})`. -/
def dateGrp : RE :=
  .seq (.seq (.cls .digit) (opt (.cls .digit)))
    (.seq (.litCI '/')
      (.seq (.seq (.cls .digit) (opt (.cls .digit)))
        (.seq (.litCI '/')
          (.seq (.cls .digit) (.seq (.cls .digit) (.seq (.cls .digit) (.cls .digit)))))))

/-- `(?:defendant|respondent)[\s:]*(...)` -/
def namePt1 : Pt :=
  { pre := .seq (.alt (lits ("defendant")) (lits ("respondent"))) (.star (.cls .wspColon))
    grp := nameGrp
    post := .eps }

/-- `(?:United States v\.)\s*(...)` -/
def namePt2 : Pt :=
  { pre := .seq (lits ("United States v.")) (.star (.cls .wsp))
    grp := nameGrp
    post := .eps }

/-- `(?:USA v\.)\s*(...)` -/
def namePt3 : Pt :=
  { pre := .seq (lits ("USA v.")) (.star (.cls .wsp))
    grp := nameGrp
    post := .eps }

/-- `(?:case\s+(?:no|number)[\.\:]?\s*)([0-9]{1,2}:[0-9]{2}[-cr]+[0-9]+)` -/
def casePt1 : Pt :=
  { pre := .seq (lits ("case")) (.seq (plus (.cls .wsp))
      (.seq (.alt (lits ("no")) (lits ("number")))
        (.seq (opt (.cls .dotColon)) (.star (.cls .wsp)))))
    grp := caseGrp
    post := .eps }

/-- `([0-9]{1,2}:[0-9]{2}[-cr]+[0-9]+)` -/
def casePt2 : Pt := { pre := .eps, grp := caseGrp, post := .eps }

/-- `(?:criminal\s+no[\.\:]?\s*)([0-9]{1,2}:[0-9]{2}[-cr]+[0-9]+)`
(main_enhanced.py only). -/
def casePtCrim : Pt :=
  { pre := .seq (lits ("criminal")) (.seq (plus (.cls .wsp))
      (.seq (lits ("no")) (.seq (opt (.cls .dotColon)) (.star (.cls .wsp)))))
    grp := caseGrp
    post := .eps }

/-- `(?:(?:United States )?District Court for the\s+)([^,\n]+)` -/
def districtPt1 : Pt :=
  { pre := .seq (opt (lits ("United States ")))
      (.seq (lits ("District Court for the")) (plus (.cls .wsp)))
    grp := plus (.cls .notCommaNL)
    post := .eps }

/-- `(?:District of\s+)(...)` -/
def districtPt2 : Pt :=
  { pre := .seq (lits ("District of")) (plus (.cls .wsp))
    grp := nameGrp
    post := .eps }

/-- `(?:USDC\s+)(...)` (main_enhanced.py only). -/
def districtPtUSDC : Pt :=
  { pre := .seq (lits ("USDC")) (plus (.cls .wsp))
    grp := nameGrp
    post := .eps }

/-- `(?:sentenced to\s+)([0-9]+)\s*months` -/
def sentencePt1 : Pt :=
  { pre := .seq (lits ("sentenced to")) (plus (.cls .wsp))
    grp := plus (.cls .digit)
    post := .seq (.star (.cls .wsp)) (lits ("months")) }

/-- `(?:term of\s+)([0-9]+)\s*months` (main_enhanced.py only). -/
def sentencePtTerm : Pt :=
  { pre := .seq (lits ("term of")) (plus (.cls .wsp))
    grp := plus (.cls .digit)
    post := .seq (.star (.cls .wsp)) (lits ("months")) }

/-- `([0-9]+)\s*months?\s+(?:imprisonment|custody)` -/
def sentencePt2 : Pt :=
  { pre := .eps
    grp := plus (.cls .digit)
    post := .seq (.star (.cls .wsp)) (.seq (lits ("month")) (.seq (opt (.litCI 's'))
      (.seq (plus (.cls .wsp)) (.alt (lits ("imprisonment")) (lits ("custody")))))) }

/-- `(?:served\s+)([0-9]+)\s*months` -/
def servedPt1 : Pt :=
  { pre := .seq (lits ("served")) (plus (.cls .wsp))
    grp := plus (.cls .digit)
    post := .seq (.star (.cls .wsp)) (lits ("months")) }

/-- `(?:time served[\:\s]*)([0-9]+)\s*months` (main_enhanced.py only). -/
def servedPtTime : Pt :=
  { pre := .seq (lits ("time served")) (.star (.cls .wspColon))
    grp := plus (.cls .digit)
    post := .seq (.star (.cls .wsp)) (lits ("months")) }

/-- `([0-9]+)\s*months?\s+served` -/
def servedPt2 : Pt :=
  { pre := .eps
    grp := plus (.cls .digit)
    post := .seq (.star (.cls .wsp)) (.seq (lits ("month")) (.seq (opt (.litCI 's'))
      (.seq (plus (.cls .wsp)) (lits ("served"))))) }

/-- `(?:lost\s+)([0-9]+)\s*(?:days?|months?)\s+(?:of\s+)?(?:good\s+time|credit)` -/
def creditsPt1 : Pt :=
  { pre := .seq (lits ("lost")) (plus (.cls .wsp))
    grp := plus (.cls .digit)
    post := .seq (.star (.cls .wsp))
      (.seq (.alt (.seq (lits ("day")) (opt (.litCI 's')))
                  (.seq (lits ("month")) (opt (.litCI 's'))))
        (.seq (plus (.cls .wsp))
          (.seq (opt (.seq (lits ("of")) (plus (.cls .wsp))))
            (.alt (.seq (lits ("good")) (.seq (plus (.cls .wsp)) (lits ("time"))))
                  (lits ("credit")))))) }

/-- `(?:credits?\s+lost[\:\s]*)([0-9]+)` (main_enhanced.py only). -/
def creditsPtCl : Pt :=
  { pre := .seq (lits ("credit")) (.seq (opt (.litCI 's'))
      (.seq (plus (.cls .wsp)) (.seq (lits ("lost")) (.star (.cls .wspColon)))))
    grp := plus (.cls .digit)
    post := .eps }

/-- `([0-9]+)\s*(?:days?|months?)\s+(?:good\s+time\s+)?lost` -/
def creditsPt2 : Pt :=
  { pre := .eps
    grp := plus (.cls .digit)
    post := .seq (.star (.cls .wsp))
      (.seq (.alt (.seq (lits ("day")) (opt (.litCI 's')))
                  (.seq (lits ("month")) (opt (.litCI 's'))))
        (.seq (plus (.cls .wsp))
          (.seq (opt (.seq (lits ("good")) (.seq (plus (.cls .wsp))
                  (.seq (lits ("time")) (plus (.cls .wsp))))))
            (lits ("lost"))))) }

/-- `(?:original\s+release\s+date[\:\s]*)(date)` -/
def origRelPt1 : Pt :=
  { pre := .seq (lits ("original")) (.seq (plus (.cls .wsp))
      (.seq (lits ("release")) (.seq (plus (.cls .wsp))
        (.seq (lits ("date")) (.star (.cls .wspColon))))))
    grp := dateGrp
    post := .eps }

/-- `(?:scheduled\s+release[\:\s]*)(date)` (main_enhanced.py only). -/
def origRelPtSched : Pt :=
  { pre := .seq (lits ("scheduled")) (.seq (plus (.cls .wsp))
      (.seq (lits ("release")) (.star (.cls .wspColon))))
    grp := dateGrp
    post := .eps }

/-- `(?:release\s+date[\:\s]*)(date)` -/
def origRelPt2 : Pt :=
  { pre := .seq (lits ("release")) (.seq (plus (.cls .wsp))
      (.seq (lits ("date")) (.star (.cls .wspColon))))
    grp := dateGrp
    post := .eps }

/-- `(?:new\s+release\s+date[\:\s]*)(date)` -/
def newRelPt1 : Pt :=
  { pre := .seq (lits ("new")) (.seq (plus (.cls .wsp))
      (.seq (lits ("release")) (.seq (plus (.cls .wsp))
        (.seq (lits ("date")) (.star (.cls .wspColon))))))
    grp := dateGrp
    post := .eps }

/-- `(?:revised\s+release[\:\s]*)(date)` (main_enhanced.py only). -/
def newRelPtRev : Pt :=
  { pre := .seq (lits ("revised")) (.seq (plus (.cls .wsp))
      (.seq (lits ("release")) (.star (.cls .wspColon))))
    grp := dateGrp
    post := .eps }

/-- `(?:projected\s+release[\:\s]*)(date)` -/
def newRelPt2 : Pt :=
  { pre := .seq (lits ("projected")) (.seq (plus (.cls .wsp))
      (.seq (lits ("release")) (.star (.cls .wspColon))))
    grp := dateGrp
    post := .eps }

/-! ## The DefendantInfo record and the field parsers -/

/-- The `DefendantInfo` data class; every field defaults to the sentinel
`"UNKNOWN"`. -/
structure DefendantInfo where
  name : String := "UNKNOWN"
  case_number : String := "UNKNOWN"
  district : String := "UNKNOWN"
  sentence_months : String := "UNKNOWN"
  months_served : String := "UNKNOWN"
  credits_lost : String := "UNKNOWN"
  original_release_date : String := "UNKNOWN"
  new_release_date : String := "UNKNOWN"
  deriving DecidableEq, Repr

/-- The field names of the DefendantInfo record. -/
inductive DField
  | name | case_number | district | sentence_months
  | months_served | credits_lost | original_release_date | new_release_date
  deriving DecidableEq, Repr

def getF (i : DefendantInfo) : DField → String
  | .name => i.name
  | .case_number => i.case_number
  | .district => i.district
  | .sentence_months => i.sentence_months
  | .months_served => i.months_served
  | .credits_lost => i.credits_lost
  | .original_release_date => i.original_release_date
  | .new_release_date => i.new_release_date

def setF (i : DefendantInfo) : DField → String → DefendantInfo
  | .name, v => { i with name := v }
  | .case_number, v => { i with case_number := v }
  | .district, v => { i with district := v }
  | .sentence_months, v => { i with sentence_months := v }
  | .months_served, v => { i with months_served := v }
  | .credits_lost, v => { i with credits_lost := v }
  | .original_release_date, v => { i with original_release_date := v }
  | .new_release_date, v => { i with new_release_date := v }

/-- Python `str.strip()`: remove leading and trailing whitespace. -/
def pstrip (l : List Char) : List Char :=
  ((l.dropWhile isPyWsp).reverse.dropWhile isPyWsp).reverse

/-- The inner loop of `parse_defendant_info` for one field: the first
pattern (in list order) with a match anywhere in the text sets the field
to the stripped capture group (`match.group(1).strip()`); if no pattern
matches, the record is left unchanged. -/
def applyField (t : List Char) (info : DefendantInfo) (fp : DField × List Pt) :
    DefendantInfo :=
  match fp.2.findSome? (fun p => reSearch p t) with
  | some g => setF info fp.1 (pstrip g).asString
  | none => info

/-- The two nested loops of `parse_defendant_info`, iterating the pattern
dictionary in insertion order over the freshly constructed record. -/
def parseWith (table : List (DField × List Pt)) (t : List Char) : DefendantInfo :=
  table.foldl (applyField t) {}

/-- The pattern table of main.py `parse_defendant_info`. -/
def mainTable : List (DField × List Pt) :=
  [(.name, [namePt1, namePt2, namePt3]),
   (.case_number, [casePt1, casePt2]),
   (.district, [districtPt1, districtPt2])]

/-- The pattern table of main_backup.py `parse_defendant_info`. -/
def backupTable : List (DField × List Pt) :=
  [(.name, [namePt1, namePt2, namePt3]),
   (.case_number, [casePt1, casePt2]),
   (.district, [districtPt1, districtPt2]),
   (.sentence_months, [sentencePt1, sentencePt2]),
   (.months_served, [servedPt1, servedPt2]),
   (.credits_lost, [creditsPt1, creditsPt2]),
   (.original_release_date, [origRelPt1, origRelPt2]),
   (.new_release_date, [newRelPt1, newRelPt2])]

/-- The pattern table of main_enhanced.py `parse_defendant_info`. -/
def enhancedTable : List (DField × List Pt) :=
  [(.name, [namePt1, namePt2, namePt3]),
   (.case_number, [casePt1, casePtCrim, casePt2]),
   (.district, [districtPt1, districtPtUSDC, districtPt2]),
   (.sentence_months, [sentencePt1, sentencePtTerm, sentencePt2]),
   (.months_served, [servedPt1, servedPtTime, servedPt2]),
   (.credits_lost, [creditsPt1, creditsPtCl, creditsPt2]),
   (.original_release_date, [origRelPt1, origRelPtSched, origRelPt2]),
   (.new_release_date, [newRelPt1, newRelPtRev, newRelPt2])]

/-- main.py `parse_defendant_info`. -/
def parse_defendant_info (t : List Char) : DefendantInfo := parseWith mainTable t

/-- main_backup.py `parse_defendant_info`. -/
def parse_defendant_info_backup (t : List Char) : DefendantInfo := parseWith backupTable t

/-- main_enhanced.py `parse_defendant_info`. -/
def parse_defendant_info_enhanced (t : List Char) : DefendantInfo := parseWith enhancedTable t

example : (parse_defendant_info ("Case No: 1:20-cr-00456-DEF".toList)).case_number
    = "1:20-cr-00456" := by decide

/-! ## Field-wise characterisation of the parsers -/

lemma getF_default (f : DField) : getF {} f = "UNKNOWN" := by
  cases f <;> rfl

lemma getF_setF_eq (i : DefendantInfo) (f : DField) (v : String) :
    getF (setF i f v) f = v := by
  cases f <;> rfl

lemma getF_setF_ne (i : DefendantInfo) {f g : DField} (v : String) (h : f ≠ g) :
    getF (setF i f v) g = getF i g := by
  cases f <;> cases g <;> first | exact absurd rfl h | rfl

lemma lookup_none_of_notin (l : List (DField × List Pt)) (f : DField)
    (h : f ∉ l.map Prod.fst) : l.lookup f = none := by
  induction l with
  | nil => rfl
  | cons hd tl ih =>
    simp only [List.map_cons, List.mem_cons] at h
    push_neg at h
    have hbeq : (f == hd.1) = false := beq_eq_false_iff_ne.mpr h.1
    simp [List.lookup, hbeq, ih h.2]

lemma getF_applyField_ne (t : List Char) (i : DefendantInfo)
    (fp : DField × List Pt) (f : DField) (h : f ≠ fp.1) :
    getF (applyField t i fp) f = getF i f := by
  unfold applyField
  cases fp.2.findSome? (fun p => reSearch p t) with
  | none => rfl
  | some g => exact getF_setF_ne i _ (Ne.symm h)

/-- Running the field loop over a table with pairwise-distinct field keys
reads back, for each field, exactly the first capture of that field's own
pattern list (or the start value if no pattern matches). -/
lemma parse_get (t : List Char) (table : List (DField × List Pt)) (f : DField)
    (i : DefendantInfo) (hnd : (table.map Prod.fst).Nodup) :
    getF (table.foldl (applyField t) i) f =
      match table.lookup f with
      | some pats =>
        match pats.findSome? (fun p => reSearch p t) with
        | some g => (pstrip g).asString
        | none => getF i f
      | none => getF i f := by
  induction table generalizing i with
  | nil => rfl
  | cons hd tl ih =>
    obtain ⟨g, pats⟩ := hd
    simp only [List.map_cons, List.nodup_cons] at hnd
    rw [List.foldl_cons, ih _ hnd.2]
    by_cases hfg : f = g
    · subst hfg
      rw [lookup_none_of_notin tl f hnd.1]
      simp only [List.lookup, beq_self_eq_true, if_true]
      unfold applyField
      cases pats.findSome? (fun p => reSearch p t) with
      | none => rfl
      | some cap => simpa using getF_setF_eq i f (pstrip cap).asString
    · have hbeq : (f == g) = false := beq_eq_false_iff_ne.mpr hfg
      have hlk : (List.lookup f ((g, pats) :: tl)) = tl.lookup f := by
        simp [List.lookup, hbeq]
      rw [hlk]
      cases tl.lookup f with
      | none => simp [getF_applyField_ne t i (g, pats) f hfg]
      | some ps =>
        dsimp only
        cases ps.findSome? (fun p => reSearch p t) with
        | none => simp [getF_applyField_ne t i (g, pats) f hfg]
        | some cap => rfl

/-- Stated from the specification text (§4.1), for comparison with the
code: each field holds the stripped captured group of the first pattern,
in the field's ordered list, that matches anywhere in the text, or the
sentinel if none matches — independently of every other field. -/
def specFieldValue (table : List (DField × List Pt)) (f : DField) (t : List Char) :
    String :=
  match table.lookup f with
  | some pats =>
    match pats.findSome? (fun p => reSearch p t) with
    | some g => (pstrip g).asString
    | none => "UNKNOWN"
  | none => "UNKNOWN"

lemma parseWith_spec (table : List (DField × List Pt))
    (hnd : (table.map Prod.fst).Nodup) (t : List Char) (f : DField) :
    getF (parseWith table t) f = specFieldValue table f t := by
  rw [parseWith, parse_get t table f {} hnd, specFieldValue]
  cases table.lookup f with
  | none => exact getF_default f
  | some pats =>
    dsimp only
    cases pats.findSome? (fun p => reSearch p t) with
    | none => exact getF_default f
    | some g => rfl

lemma findSome?_none_of_all {α β : Type} (f : α → Option β) (l : List α)
    (h : ∀ x ∈ l, f x = none) : l.findSome? f = none := by
  induction l with
  | nil => rfl
  | cons a tl ih =>
    rw [List.findSome?_cons]
    rw [h a (List.mem_cons_self a tl)]
    exact ih fun x hx => h x (List.mem_cons_of_mem a hx)

/-! ## Claim C4 -/

/-- Claim C4, as stated, is false: on the input text
`"Case No: 1:20-cr-00456-DEF"` the parser sets `case_number` to
`"1:20-cr-00456"`, not to `"1:20-cr-00456-DEF"` — the capture group
`([0-9]{1,2}:[0-9]{2}[-cr]+[0-9]+)` ends at the digits and cannot include
the alphabetic suffix `-DEF`. -/
theorem C4_counterexample :
    (parse_defendant_info ("Case No: 1:20-cr-00456-DEF".toList)).case_number
      ≠ "1:20-cr-00456-DEF" := by decide

/-- Claim C4 (amended): for the input text containing exactly the
substring `"Case No: 1:20-cr-00456-DEF"`, the field parser of main.py and
the one of main_enhanced.py set `case_number` to exactly
`"1:20-cr-00456"`; the trailing `"-DEF"` is not part of the captured
group. -/
theorem C4_theorem :
    (parse_defendant_info ("Case No: 1:20-cr-00456-DEF".toList)).case_number
        = "1:20-cr-00456" ∧
    (parse_defendant_info_enhanced ("Case No: 1:20-cr-00456-DEF".toList)).case_number
        = "1:20-cr-00456" := by decide

/-! ## Claim C6 -/

/-- Claim C6: for every input text, `parse_defendant_info` (main.py and
main_enhanced.py) sets each field of the record to the stripped captured
group of the first pattern, in the field's list order, that matches
anywhere in the text case-insensitively, or to the `"UNKNOWN"` sentinel
if no pattern for that field matches; each field's outcome depends only
on that field's own pattern list (`specFieldValue` reads just the field's
entry of the table), independently of the other fields. -/
theorem C6_theorem (t : List Char) (f : DField) :
    getF (parse_defendant_info t) f = specFieldValue mainTable f t ∧
    getF (parse_defendant_info_enhanced t) f = specFieldValue enhancedTable f t :=
  ⟨parseWith_spec mainTable (by decide) t f,
   parseWith_spec enhancedTable (by decide) t f⟩

/-! ## Claim C7 -/

/-- Claim C7: on any input text in which no pattern of any field matches,
`parse_defendant_info` of main_backup.py returns the record in which
every one of the eight fields equals the sentinel `"UNKNOWN"` (and the
3-field parser of main.py does likewise). -/
theorem C7_theorem (t : List Char)
    (hb : ∀ fp ∈ backupTable, ∀ p ∈ fp.2, reSearch p t = none) :
    parse_defendant_info_backup t =
      { name := "UNKNOWN", case_number := "UNKNOWN", district := "UNKNOWN",
        sentence_months := "UNKNOWN", months_served := "UNKNOWN",
        credits_lost := "UNKNOWN", original_release_date := "UNKNOWN",
        new_release_date := "UNKNOWN" } ∧
    parse_defendant_info t =
      { name := "UNKNOWN", case_number := "UNKNOWN", district := "UNKNOWN",
        sentence_months := "UNKNOWN", months_served := "UNKNOWN",
        credits_lost := "UNKNOWN", original_release_date := "UNKNOWN",
        new_release_date := "UNKNOWN" } := by
  have hmain : ∀ fp ∈ mainTable, ∀ p ∈ fp.2, reSearch p t = none := by
    intro fp hfp p hp
    have hsub : fp ∈ backupTable := by
      simp only [mainTable, List.mem_cons, List.not_mem_nil, or_false] at hfp
      rcases hfp with h | h | h <;> subst h <;> simp [backupTable]
    exact hb fp hsub p hp
  have key : ∀ (table : List (DField × List Pt)),
      (∀ fp ∈ table, ∀ p ∈ fp.2, reSearch p t = none) →
      table.foldl (applyField t) {} =
        ({} : DefendantInfo) := by
    intro table htab
    induction table with
    | nil => rfl
    | cons hd tl ih =>
      rw [List.foldl_cons]
      have hstep : applyField t {} hd = ({} : DefendantInfo) := by
        unfold applyField
        rw [findSome?_none_of_all _ _ (htab hd (List.mem_cons_self hd tl))]
      rw [hstep]
      exact ih fun fp hfp => htab fp (List.mem_cons_of_mem hd hfp)
  exact ⟨key backupTable hb, key mainTable hmain⟩

/-- Witness for C7: on the text `"zzz"` no pattern matches, and every
field of the parsed record is `"UNKNOWN"`. -/
theorem C7_witness :
    parse_defendant_info_backup ("zzz".toList) =
      { name := "UNKNOWN", case_number := "UNKNOWN", district := "UNKNOWN",
        sentence_months := "UNKNOWN", months_served := "UNKNOWN",
        credits_lost := "UNKNOWN", original_release_date := "UNKNOWN",
        new_release_date := "UNKNOWN" } :=
  (C7_theorem ("zzz".toList) (by decide)).1

/-! ## The document splitter

The splitter of `generate_with_o3_research` runs
`re.search(r'===X START===(.*?)===X END===', final_content, re.DOTALL)`
for each of the three documents and takes `group(1).strip()` when the
match succeeds, a placeholder string otherwise. -/

/-- Group `(.*?)` under `re.DOTALL`. -/
def dotGrp : RE := .starL (.cls .anyDot)

/-- The pattern `S(.*?)E` for literal delimiters `S` and `E`. -/
def splitPt (s e : String) : Pt := { pre := litx s, grp := dotGrp, post := litx e }

/-- Index of the first occurrence of `pat` as a contiguous substring. -/
def findSub (pat : List Char) : List Char → Option Nat
  | [] => if pat.isPrefixOf ([] : List Char) then some 0 else none
  | c :: r => if pat.isPrefixOf (c :: r) then some 0 else (findSub pat r).map (· + 1)

/-- Regexes without repetition operators. -/
def starFree : RE → Bool
  | .eps => true
  | .cls _ => true
  | .lit _ => true
  | .litCI _ => true
  | .seq a b => starFree a && starFree b
  | .alt a b => starFree a && starFree b
  | .star _ => false
  | .starL _ => false

lemma mre_starFree (r : RE) (hr : starFree r = true) :
    ∀ (f : Nat) (t : List Char), mre f r t = mre0 r t := by
  induction r with
  | eps => intro f t; cases f <;> rfl
  | cls k => intro f t; cases f <;> cases t <;> rfl
  | lit a => intro f t; cases f <;> cases t <;> rfl
  | litCI a => intro f t; cases f <;> cases t <;> rfl
  | seq a b iha ihb =>
    simp only [starFree, Bool.and_eq_true] at hr
    intro f t
    cases f with
    | zero => rfl
    | succ f =>
      have ha : ∀ u, mreS (mre f) a u = mre0 a u := fun u => iha hr.1 (f + 1) u
      have hb : ∀ u, mreS (mre f) b u = mre0 b u := fun u => ihb hr.2 (f + 1) u
      show mreS (mre f) (.seq a b) t = mre0 (.seq a b) t
      simp only [mreS, mre0, ha, hb]
  | alt a b iha ihb =>
    simp only [starFree, Bool.and_eq_true] at hr
    intro f t
    cases f with
    | zero => rfl
    | succ f =>
      have ha : ∀ u, mreS (mre f) a u = mre0 a u := fun u => iha hr.1 (f + 1) u
      have hb : ∀ u, mreS (mre f) b u = mre0 b u := fun u => ihb hr.2 (f + 1) u
      show mreS (mre f) (.alt a b) t = mre0 (.alt a b) t
      simp only [mreS, mre0, ha, hb]
  | star a _ => simp [starFree] at hr
  | starL a _ => simp [starFree] at hr

lemma starFree_litword (l : List Char) :
    starFree (l.foldr (fun c r => .seq (.lit c) r) .eps) = true := by
  induction l with
  | nil => rfl
  | cons c r ih => simp [starFree, ih]

/-- A star-free literal word matches iff it is a prefix, in exactly one
way, consuming exactly itself. -/
lemma mre0_litword (l : List Char) : ∀ (t : List Char),
    mre0 (l.foldr (fun c r => .seq (.lit c) r) .eps) t =
      if l.isPrefixOf t then [(l, t.drop l.length)] else [] := by
  induction l with
  | nil => intro t; simp [mre0, List.isPrefixOf]
  | cons c r ih =>
    intro t
    cases t with
    | nil => simp [mre0, List.isPrefixOf]
    | cons d u =>
      simp only [List.foldr_cons, mre0, List.isPrefixOf_cons₂]
      by_cases hdc : d = c
      · subst hdc
        by_cases hp : r.isPrefixOf u
        · simp [ih u, hp]
        · simp [ih u, hp]
      · have hcd : (c == d) = false := beq_eq_false_iff_ne.mpr fun h => hdc h.symm
        simp [if_neg hdc, hcd]

lemma mre_litx (s : String) (f : Nat) (t : List Char) :
    mre f (litx s) t =
      if s.toList.isPrefixOf t then [(s.toList, t.drop s.toList.length)] else [] := by
  rw [litx, mre_starFree _ (starFree_litword s.toList), mre0_litword]

/-- All ways of splitting a list into a prefix and the rest, shortest
prefix first. -/
def splits : List Char → List (List Char × List Char)
  | [] => [([], [])]
  | c :: r => ([], c :: r) :: (splits r).map (fun q => (c :: q.1, q.2))

/-- The lazy dot-star enumerates the splits of `t` shortest-first. -/
lemma mre_dotGrp (t : List Char) : ∀ (f : Nat), t.length ≤ f →
    mre f dotGrp t = splits t := by
  induction t with
  | nil =>
    intro f _
    cases f with
    | zero => rfl
    | succ f => rfl
  | cons c r ih =>
    intro f hf
    cases f with
    | zero => exact absurd hf (by simp)
    | succ f =>
      have hr : r.length <= f := by
        have h2 : r.length + 1 <= f + 1 := by simpa using hf
        omega
      show mreS (mre f) dotGrp (c :: r) = _
      rw [show mreS (mre f) dotGrp (c :: r) =
            ([], c :: r) :: (mre f dotGrp r).map (fun q => (c :: q.1, q.2)) from by
          simp [dotGrp, mreS, ccMatch, List.flatMap_cons]]
      rw [ih f hr, splits]

lemma findSome?_map_fn {α β γ : Type} (g : α → β) (f : β → Option γ) (l : List α) :
    (l.map g).findSome? f = l.findSome? (fun x => f (g x)) := by
  induction l with
  | nil => rfl
  | cons a tl ih =>
    rw [List.map_cons, List.findSome?_cons, List.findSome?_cons]
    cases f (g a) <;> simp [ih]

lemma findSome?_post_map {α β γ : Type} (f : α → Option β) (g : β → γ) (l : List α) :
    l.findSome? (fun x => (f x).map g) = (l.findSome? f).map g := by
  induction l with
  | nil => rfl
  | cons a tl ih =>
    rw [List.findSome?_cons, List.findSome?_cons]
    cases f a <;> simp [ih]

lemma findSome?_congr_fn {α β : Type} (f g : α → Option β) (l : List α)
    (h : ∀ x ∈ l, f x = g x) : l.findSome? f = l.findSome? g := by
  induction l with
  | nil => rfl
  | cons a tl ih =>
    rw [List.findSome?_cons, List.findSome?_cons, h a (List.mem_cons_self a tl)]
    cases g a with
    | none => exact ih fun x hx => h x (List.mem_cons_of_mem a hx)
    | some b => rfl

/-- Scanning the shortest-first splits of `u` for the first one whose rest
starts with `e` is exactly the first-substring search for `e`. -/
lemma findSome?_take_drop (e : List Char) : ∀ (u : List Char),
    (splits u).findSome? (fun g => if e.isPrefixOf g.2 then some g.1 else none)
      = (findSub e u).map (fun j => u.take j) := by
  intro u
  induction u with
  | nil =>
    cases e with
    | nil => simp [splits, findSub, List.isPrefixOf, List.findSome?_cons]
    | cons a as => simp [splits, findSub, List.isPrefixOf, List.findSome?_cons]
  | cons c r ih =>
    rw [splits, List.findSome?_cons]
    by_cases hp : e.isPrefixOf (c :: r)
    · simp [hp, findSub]
    · rw [if_neg (by simpa using hp)]
      rw [findSome?_map_fn]
      rw [findSome?_congr_fn _
        (fun q => ((if e.isPrefixOf q.2 then some q.1 else none).map
          (fun l => c :: l))) _ (by
        intro q _
        cases hq : e.isPrefixOf q.2 <;> simp [hq])]
      rw [findSome?_post_map, ih]
      rw [findSub, if_neg (by simpa using hp)]
      cases findSub e r <;> simp

/-- One anchored attempt of the splitter pattern `S(.*?)E`: succeeds iff
`S` is a prefix and `E` occurs in the remainder, capturing up to the
first `E` occurrence (the lazy group takes the shortest expansion). -/
lemma matchAt_split (s e : String) (t : List Char) :
    matchAt (splitPt s e) t =
      if s.toList.isPrefixOf t then
        (findSub e.toList (t.drop s.toList.length)).map
          (fun j => (t.drop s.toList.length).take j)
      else none := by
  unfold matchAt splitPt
  simp only [mre_litx]
  by_cases hp : s.toList.isPrefixOf t
  · rw [if_pos hp, if_pos hp, List.findSome?_cons]
    rw [mre_dotGrp _ _ (Nat.le_succ _)]
    rw [findSome?_congr_fn _
      (fun g => if e.toList.isPrefixOf g.2 then some g.1 else none) _ (by
        intro g _
        by_cases hq : e.toList.isPrefixOf g.2
        · simp [hq]
        · simp [hq])]
    rw [findSome?_take_drop]
    cases findSub e.toList (List.drop s.toList.length t) <;> simp
  · rw [if_neg hp, if_neg hp]
    rfl

lemma findSub_cons_of_not_pref {pat : List Char} {c : Char} {r : List Char}
    (h : ¬ pat.isPrefixOf (c :: r)) :
    findSub pat (c :: r) = (findSub pat r).map (· + 1) := by
  rw [findSub, if_neg (by simpa using h)]

/-- A substring absent from `u` is absent from every suffix of `u`. -/
lemma findSub_drop_none (pat : List Char) : ∀ (u : List Char) (k : Nat),
    findSub pat u = none → findSub pat (u.drop k) = none := by
  intro u
  induction u with
  | nil => intro k h; simpa using h
  | cons c r ih =>
    intro k h
    by_cases hp : pat.isPrefixOf (c :: r)
    · rw [findSub, if_pos (by simpa using hp)] at h
      exact absurd h (by simp)
    · rw [findSub_cons_of_not_pref hp] at h
      have hr : findSub pat r = none := by
        cases hfr : findSub pat r with
        | none => rfl
        | some j => rw [hfr] at h; exact absurd h (by simp)
      cases k with
      | zero =>
        rw [List.drop_zero, findSub_cons_of_not_pref hp, hr]
        rfl
      | succ k =>
        rw [List.drop_succ_cons]
        exact ih k hr

/-- The splitter search in full: the match, if any, starts at the first
occurrence of the start delimiter and captures up to the first occurrence
of the end delimiter after it.  (If the first `S` occurrence has no
following `E`, no later `S` occurrence has one either, so the search
fails — exactly as the backtracking engine behaves.) -/
lemma reSearch_split (s e : String) : ∀ (t : List Char),
    reSearch (splitPt s e) t =
      (findSub s.toList t).bind (fun i =>
        (findSub e.toList (t.drop (i + s.toList.length))).map
          (fun j => (t.drop (i + s.toList.length)).take j)) := by
  intro t
  induction t with
  | nil =>
    rw [reSearch, matchAt_split, findSub]
    by_cases hp : s.toList.isPrefixOf ([] : List Char)
    · rw [if_pos hp, if_pos (by simpa using hp)]
      simp
    · rw [if_neg hp, if_neg (by simpa using hp)]
      rfl
  | cons c r ih =>
    rw [reSearch]
    cases hm : matchAt (splitPt s e) (c :: r) with
    | some g =>
      rw [matchAt_split] at hm
      by_cases hp : s.toList.isPrefixOf (c :: r)
      · rw [if_pos hp] at hm
        rw [findSub, if_pos (by simpa using hp)]
        show some g = (findSub e.toList (List.drop (0 + s.toList.length) (c :: r))).map
            (fun j => List.take j (List.drop (0 + s.toList.length) (c :: r)))
        rw [show (0 : Nat) + s.toList.length = s.toList.length from by omega]
        exact hm.symm
      · rw [if_neg hp] at hm
        exact absurd hm (by simp)
    | none =>
      rw [matchAt_split] at hm
      by_cases hp : s.toList.isPrefixOf (c :: r)
      · rw [if_pos hp] at hm
        have hf : findSub e.toList (List.drop s.toList.length (c :: r)) = none := by
          cases hfe : findSub e.toList (List.drop s.toList.length (c :: r)) with
          | none => rfl
          | some j => rw [hfe] at hm; exact absurd hm (by simp)
        rw [findSub, if_pos (by simpa using hp)]
        show reSearch (splitPt s e) r
            = (findSub e.toList (List.drop (0 + s.toList.length) (c :: r))).map
              (fun j => List.take j (List.drop (0 + s.toList.length) (c :: r)))
        rw [show (0 : Nat) + s.toList.length = s.toList.length from by omega, hf]
        show reSearch (splitPt s e) r = none
        rw [ih]
        cases hfs : findSub s.toList r with
        | none => rfl
        | some i =>
          have hsub : findSub e.toList (List.drop (i + s.toList.length) r) = none := by
            have hd : List.drop (i + s.toList.length) r
                = (List.drop s.toList.length (c :: r)).drop (i + 1) := by
              rw [List.drop_drop]
              first
              | rw [show i + 1 + s.toList.length = i + s.toList.length + 1 from by omega]
              | rw [show s.toList.length + (i + 1) = i + s.toList.length + 1 from by omega]
              rw [List.drop_succ_cons]
            rw [hd]
            exact findSub_drop_none _ _ _ hf
          show (findSub e.toList (List.drop (i + s.toList.length) r)).map
              (fun j => List.take j (List.drop (i + s.toList.length) r)) = none
          rw [hsub]
          rfl
      · rw [if_neg hp] at hm
        rw [findSub_cons_of_not_pref hp, ih]
        cases hfs : findSub s.toList r with
        | none => rfl
        | some i =>
          show (findSub e.toList (List.drop (i + s.toList.length) r)).map
              (fun j => List.take j (List.drop (i + s.toList.length) r))
            = (findSub e.toList (List.drop (i + 1 + s.toList.length) (c :: r))).map
              (fun j => List.take j (List.drop (i + 1 + s.toList.length) (c :: r)))
          rw [show i + 1 + s.toList.length = i + s.toList.length + 1 from by omega]
          rw [List.drop_succ_cons]

/-! ## extract of the three documents from the model response -/

def motionStart : String := "===MOTION START==="
def motionEnd : String := "===MOTION END==="
def memoStart : String := "===MEMO START==="
def memoEnd : String := "===MEMO END==="
def declStart : String := "===DECL START==="
def declEnd : String := "===DECL END==="

def motionPlaceholder : String := "Motion could not be generated with O3 reasoning"
def memoPlaceholder : String := "Memo could not be generated with O3 reasoning"
def declPlaceholder : String := "Declaration could not be generated with O3 reasoning"

/-- The `GeneratedDocumentSet`: three named text bodies. -/
structure GeneratedDocs where
  motion : String
  memo : String
  declaration : String
  deriving DecidableEq, Repr

/-- The `documents` dictionary built in `generate_with_o3_research`
(main.py lines 330–338, main_o3.py lines 307–315): for each document,
`re.search(r'===X START===(.*?)===X END===', final_content, re.DOTALL)`,
then `group(1).strip()` on success and the placeholder string on
failure.  No code path raises. -/
def extract_documents (final_content : List Char) : GeneratedDocs :=
  { motion :=
      match reSearch (splitPt motionStart motionEnd) final_content with
      | some g => (pstrip g).asString
      | none => motionPlaceholder
    memo :=
      match reSearch (splitPt memoStart memoEnd) final_content with
      | some g => (pstrip g).asString
      | none => memoPlaceholder
    declaration :=
      match reSearch (splitPt declStart declEnd) final_content with
      | some g => (pstrip g).asString
      | none => declPlaceholder }

/-- On a text decomposing as `p ++ S ++ b ++ E ++ q`, where the first `S`
occurrence starts at `p.length` and the first `E` occurrence after it is
at offset `b.length`, the splitter captures exactly `b`. -/
lemma reSearch_split_of_decomp (s e : String) (p b q : List Char)
    (hs : findSub s.toList (p ++ s.toList ++ b ++ e.toList ++ q) = some p.length)
    (he : findSub e.toList (b ++ e.toList ++ q) = some b.length) :
    reSearch (splitPt s e) (p ++ s.toList ++ b ++ e.toList ++ q) = some b := by
  rw [reSearch_split, hs]
  have hdrop : (p ++ s.toList ++ b ++ e.toList ++ q).drop (p.length + s.toList.length)
      = b ++ e.toList ++ q := by
    rw [show p ++ s.toList ++ b ++ e.toList ++ q
        = (p ++ s.toList) ++ (b ++ e.toList ++ q) from by simp [List.append_assoc]]
    rw [show p.length + s.toList.length = (p ++ s.toList).length from
      (List.length_append p s.toList).symm]
    exact List.drop_left (p ++ s.toList) (b ++ e.toList ++ q)
  show ((p ++ s.toList ++ b ++ e.toList ++ q).drop (p.length + s.toList.length)
      |> findSub e.toList).map
        (fun j => ((p ++ s.toList ++ b ++ e.toList ++ q).drop
          (p.length + s.toList.length)).take j) = some b
  rw [hdrop, he]
  have htake : (b ++ e.toList ++ q).take b.length = b := by
    rw [show b ++ e.toList ++ q = b ++ (e.toList ++ q) from by simp [List.append_assoc]]
    exact List.take_left b (e.toList ++ q)
  simp [htake]

/-- A text with no occurrence of the start delimiter, or none of the end
delimiter after the first start-delimiter occurrence, yields no match. -/
lemma reSearch_split_none (s e : String) (t : List Char)
    (h : (findSub s.toList t).bind
      (fun i => findSub e.toList (t.drop (i + s.toList.length))) = none) :
    reSearch (splitPt s e) t = none := by
  rw [reSearch_split]
  cases hfs : findSub s.toList t with
  | none => rfl
  | some i =>
    rw [hfs] at h
    have : findSub e.toList (t.drop (i + s.toList.length)) = none := by
      simpa using h
    show (findSub e.toList (t.drop (i + s.toList.length))).map
      (fun j => (t.drop (i + s.toList.length)).take j) = none
    rw [this]
    rfl

/-! ## Claim C5 -/

/-- Claim C5: given a model response containing a well-formed delimiter
pair (the delimiter occurring first at the stated position and the end
delimiter first at the end of the body), the document splitter extracts
exactly the inner body verbatim up to whitespace-trimming — for each of
the three documents; and when a delimiter pair is malformed or missing
(no start-delimiter occurrence, or no end-delimiter occurrence after the
first start-delimiter occurrence), the corresponding document equals the
documented placeholder text.  The splitter is a total function, so no
exception is raised on any input. -/
theorem C5_theorem :
    (∀ (p b q : List Char),
      findSub motionStart.toList
          (p ++ motionStart.toList ++ b ++ motionEnd.toList ++ q) = some p.length →
      findSub motionEnd.toList (b ++ motionEnd.toList ++ q) = some b.length →
      (extract_documents
          (p ++ motionStart.toList ++ b ++ motionEnd.toList ++ q)).motion
        = (pstrip b).asString) ∧
    (∀ (p b q : List Char),
      findSub memoStart.toList
          (p ++ memoStart.toList ++ b ++ memoEnd.toList ++ q) = some p.length →
      findSub memoEnd.toList (b ++ memoEnd.toList ++ q) = some b.length →
      (extract_documents
          (p ++ memoStart.toList ++ b ++ memoEnd.toList ++ q)).memo
        = (pstrip b).asString) ∧
    (∀ (p b q : List Char),
      findSub declStart.toList
          (p ++ declStart.toList ++ b ++ declEnd.toList ++ q) = some p.length →
      findSub declEnd.toList (b ++ declEnd.toList ++ q) = some b.length →
      (extract_documents
          (p ++ declStart.toList ++ b ++ declEnd.toList ++ q)).declaration
        = (pstrip b).asString) ∧
    (∀ (t : List Char),
      (findSub motionStart.toList t).bind
          (fun i => findSub motionEnd.toList (t.drop (i + motionStart.toList.length)))
        = none →
      (extract_documents t).motion = motionPlaceholder) ∧
    (∀ (t : List Char),
      (findSub memoStart.toList t).bind
          (fun i => findSub memoEnd.toList (t.drop (i + memoStart.toList.length)))
        = none →
      (extract_documents t).memo = memoPlaceholder) ∧
    (∀ (t : List Char),
      (findSub declStart.toList t).bind
          (fun i => findSub declEnd.toList (t.drop (i + declStart.toList.length)))
        = none →
      (extract_documents t).declaration = declPlaceholder) := by
  refine ⟨?_, ?_, ?_, ?_, ?_, ?_⟩
  · intro p b q hs he
    show (match reSearch (splitPt motionStart motionEnd)
        (p ++ motionStart.toList ++ b ++ motionEnd.toList ++ q) with
      | some g => (pstrip g).asString
      | none => motionPlaceholder) = (pstrip b).asString
    rw [reSearch_split_of_decomp _ _ p b q hs he]
  · intro p b q hs he
    show (match reSearch (splitPt memoStart memoEnd)
        (p ++ memoStart.toList ++ b ++ memoEnd.toList ++ q) with
      | some g => (pstrip g).asString
      | none => memoPlaceholder) = (pstrip b).asString
    rw [reSearch_split_of_decomp _ _ p b q hs he]
  · intro p b q hs he
    show (match reSearch (splitPt declStart declEnd)
        (p ++ declStart.toList ++ b ++ declEnd.toList ++ q) with
      | some g => (pstrip g).asString
      | none => declPlaceholder) = (pstrip b).asString
    rw [reSearch_split_of_decomp _ _ p b q hs he]
  · intro t h
    show (match reSearch (splitPt motionStart motionEnd) t with
      | some g => (pstrip g).asString
      | none => motionPlaceholder) = motionPlaceholder
    rw [reSearch_split_none _ _ _ h]
  · intro t h
    show (match reSearch (splitPt memoStart memoEnd) t with
      | some g => (pstrip g).asString
      | none => memoPlaceholder) = memoPlaceholder
    rw [reSearch_split_none _ _ _ h]
  · intro t h
    show (match reSearch (splitPt declStart declEnd) t with
      | some g => (pstrip g).asString
      | none => declPlaceholder) = declPlaceholder
    rw [reSearch_split_none _ _ _ h]

/-- Witness for C5: a concrete well-formed motion block is extracted and
trimmed, and a delimiter-free response yields the memo placeholder. -/
theorem C5_witness :
    (extract_documents (("AA".toList) ++ motionStart.toList ++ (" M1 ".toList)
        ++ motionEnd.toList ++ ("ZZ".toList))).motion
      = (pstrip (" M1 ".toList)).asString ∧
    (extract_documents ("no delimiters".toList)).memo = memoPlaceholder :=
  ⟨C5_theorem.1 ("AA".toList) (" M1 ".toList) ("ZZ".toList) (by decide) (by decide),
   C5_theorem.2.2.2.2.1 ("no delimiters".toList) (by decide)⟩

/-! ## Session store and SSE relays

A session is `{"events": [...], "status": "active" | "completed"}`.  The
orchestrator appends events and finally sets the status; the relay
endpoint polls the log.  A poll (one iteration of the `while True` body
of `event_generator`) is modelled as an atomic step observing a snapshot
of the session; an interleaving of appends and polls is then a monotone
sequence of snapshots, one per poll. -/

inductive EType
  | thinking | search | done | error
  deriving DecidableEq, Repr

/-- Event payloads as the orchestrators build them: plain strings,
JSON-like objects, and search payloads.  (The relay of main.py filters
`None`/empty payloads; the orchestrators of this repository never append
`None`, and the empty string is representable as `.str ""`.) -/
inductive EData
  | str (s : String)
  | obj (kvs : List (String × String))
  | searchP (query : String) (results : List (List (String × String)))
  deriving DecidableEq, Repr

structure Event where
  type : EType
  data : EData
  deriving DecidableEq, Repr

inductive SStatus
  | active | completed
  deriving DecidableEq, Repr

structure Session where
  events : List Event
  status : SStatus
  deriving DecidableEq, Repr

/-- The filter of main.py `event_generator`:
`if event_data is None or event_data == "": continue`. -/
def isNullOrEmpty : EData → Bool
  | .str s => s = ""
  | _ => false

/-- The four wire message shapes yielded by main.py `event_generator`
(the JSON serialisation itself is not modelled — the claims concern
count and order of forwarded messages). -/
inductive Msg
  | thinkingM (data : EData)
  | searchM (data : EData)
  | doneM (data : EData)
  | errorM (data : EData)
  deriving DecidableEq, Repr

/-- The wire message main.py produces for an event. -/
def mainWire (e : Event) : Msg :=
  match e.type with
  | .thinking => .thinkingM e.data
  | .search => .searchM e.data
  | .done => .doneM e.data
  | .error => .errorM e.data

/-- The `for i in range(last_event_index, len(events))` loop of main.py
`event_generator`, with the event list already positioned at index `i`:
empty payloads are skipped (`continue`), and the `done` and `error`
branches `break` out of the loop right after yielding. -/
def mainScan : List Event → Nat → List (Nat × Msg)
  | [], _ => []
  | e :: rest, i =>
    if isNullOrEmpty e.data then mainScan rest (i + 1)
    else
      match e.type with
      | .thinking => (i, .thinkingM e.data) :: mainScan rest (i + 1)
      | .search => (i, .searchM e.data) :: mainScan rest (i + 1)
      | .done => [(i, .doneM e.data)]
      | .error => [(i, .errorM e.data)]

structure RelayState where
  idx : Nat
  out : List (Nat × Msg)
  finished : Bool
  deriving DecidableEq, Repr

def initRelay : RelayState := { idx := 0, out := [], finished := false }

/-- One poll of main.py `event_generator`: forward the new events (with
the filter and the breaks), set `last_event_index = len(events)`, and
leave the while-loop when `status == "completed"`.  After the loop has
finished no further iteration runs. -/
def mainPoll (s : Session) (st : RelayState) : RelayState :=
  if st.finished then st
  else
    { idx := s.events.length
      out := st.out ++ mainScan (s.events.drop st.idx) st.idx
      finished := s.status = .completed }

def mainRunFrom (snaps : List Session) (st : RelayState) : RelayState :=
  snaps.foldl (fun a s => mainPoll s a) st

def mainRun (snaps : List Session) : RelayState := mainRunFrom snaps initRelay

/-- The wire message of main_backup.py `event_generator`:
`{"event": event["type"], "data": json.dumps(event["payload"])}` — the
event kind and payload are forwarded unchanged, with no filter and no
break. -/
def backupWire (e : Event) : EType × EData := (e.type, e.data)

/-- The `while last_event_index < len(events)` loop of main_backup.py. -/
def backupScan : List Event → Nat → List (Nat × (EType × EData))
  | [], _ => []
  | e :: rest, i => (i, backupWire e) :: backupScan rest (i + 1)

structure BRelayState where
  idx : Nat
  out : List (Nat × (EType × EData))
  finished : Bool
  deriving DecidableEq, Repr

def initBRelay : BRelayState := { idx := 0, out := [], finished := false }

/-- One poll of main_backup.py `event_generator`. -/
def backupPoll (s : Session) (st : BRelayState) : BRelayState :=
  if st.finished then st
  else
    { idx := s.events.length
      out := st.out ++ backupScan (s.events.drop st.idx) st.idx
      finished := s.status = .completed }

def backupRunFrom (snaps : List Session) (st : BRelayState) : BRelayState :=
  snaps.foldl (fun a s => backupPoll s a) st

def backupRun (snaps : List Session) : BRelayState := backupRunFrom snaps initBRelay

/-- Relation between successive snapshots seen by the relay: the log only
grows (appends), and a completed session stays completed with a frozen
log (the orchestrators never append after setting
`status = "completed"`, see C2). -/
def SnapStep (s1 s2 : Session) : Prop :=
  s1.events.isPrefixOf s2.events = true ∧
  (s1.status = .completed → s2.status = .completed ∧ s2.events = s1.events)

/-- A legal sequence of poll observations. -/
def SnapChain (snaps : List Session) : Prop := List.Chain' SnapStep snaps

lemma snapStep_refl (s : Session) : SnapStep s s :=
  ⟨by simp [List.isPrefixOf_iff_prefix], fun h => ⟨h, rfl⟩⟩

lemma snapStep_trans {a b c : Session} (h1 : SnapStep a b) (h2 : SnapStep b c) :
    SnapStep a c := by
  refine ⟨?_, ?_⟩
  · have p1 := List.isPrefixOf_iff_prefix.mp h1.1
    have p2 := List.isPrefixOf_iff_prefix.mp h2.1
    exact List.isPrefixOf_iff_prefix.mpr (p1.trans p2)
  · intro ha
    obtain ⟨hb, hbe⟩ := h1.2 ha
    obtain ⟨hc, hce⟩ := h2.2 hb
    exact ⟨hc, by rw [hce, hbe]⟩

lemma getLast?_mem {α : Type} : ∀ (l : List α) (x : α), l.getLast? = some x → x ∈ l := by
  intro l
  induction l with
  | nil => intro x h; simp at h
  | cons a r ih =>
    intro x h
    cases r with
    | nil => simp at h; simp [h]
    | cons b rs =>
      rw [List.getLast?_cons_cons] at h
      exact List.mem_cons_of_mem a (ih x h)

/-- Every snapshot in a legal observation sequence relates to the final
snapshot. -/
lemma snap_le_last : ∀ (snaps : List Session) (sl : Session),
    SnapChain snaps → snaps.getLast? = some sl → ∀ s ∈ snaps, SnapStep s sl := by
  intro snaps
  induction snaps with
  | nil => intro sl _ h; simp at h
  | cons a r ih =>
    intro sl hch hl s hs
    cases r with
    | nil =>
      simp at hl
      rcases List.mem_singleton.mp hs with rfl
      rw [hl]
      exact snapStep_refl sl
    | cons b rs =>
      rw [List.getLast?_cons_cons] at hl
      have hch2 : SnapChain (b :: rs) := (List.chain'_cons.mp hch).2
      have hab : SnapStep a b := (List.chain'_cons.mp hch).1
      rcases List.mem_cons.mp hs with rfl | hs2
      · exact snapStep_trans hab (ih sl hch2 hl b (List.mem_cons_self b rs))
      · exact ih sl hch2 hl s hs2

/-- Reference forwarding: every event in order, tagged with its log
position. -/
def wireAll : List Event → Nat → List (Nat × Msg)
  | [], _ => []
  | e :: rest, i => (i, mainWire e) :: wireAll rest (i + 1)

lemma wireAll_append : ∀ (a b : List Event) (i : Nat),
    wireAll (a ++ b) i = wireAll a i ++ wireAll b (i + a.length) := by
  intro a
  induction a with
  | nil => intro b i; simp [wireAll]
  | cons e r ih =>
    intro b i
    show (i, mainWire e) :: wireAll (r ++ b) (i + 1)
      = (i, mainWire e) :: (wireAll r (i + 1) ++ wireAll b (i + (r.length + 1)))
    rw [ih b (i + 1), show i + 1 + r.length = i + (r.length + 1) from by omega]

lemma wireAll_snd : ∀ (l : List Event) (i : Nat),
    (wireAll l i).map Prod.snd = l.map mainWire := by
  intro l
  induction l with
  | nil => intro i; rfl
  | cons e r ih => intro i; simp [wireAll, ih]

/-- When every payload is non-empty and the only `done`/`error` event, if
any, is the last one, the main.py scan forwards every event in order. -/
lemma mainScan_all : ∀ (l : List Event) (i : Nat),
    (∀ e ∈ l, isNullOrEmpty e.data = false) →
    (∀ e ∈ l.dropLast, e.type ≠ .done ∧ e.type ≠ .error) →
    mainScan l i = wireAll l i := by
  intro l
  induction l with
  | nil => intro i _ _; rfl
  | cons e r ih =>
    intro i hne hde
    rw [mainScan, if_neg (by simp [hne e (List.mem_cons_self e r)])]
    cases r with
    | nil =>
      cases he : e.type <;> simp [wireAll, mainScan, mainWire, he]
    | cons b rs =>
      have hel : e ∈ (e :: b :: rs).dropLast := by
        rw [List.dropLast_cons₂]
        exact List.mem_cons_self e _
      have hrest : mainScan (b :: rs) (i + 1) = wireAll (b :: rs) (i + 1) := by
        refine ih (i + 1) (fun x hx => hne x (List.mem_cons_of_mem e hx)) ?_
        intro x hx
        refine hde x ?_
        rw [List.dropLast_cons₂]
        exact List.mem_cons_of_mem e hx
      cases he : e.type with
      | thinking => simp [wireAll, mainWire, he, hrest]
      | search => simp [wireAll, mainWire, he, hrest]
      | done => exact absurd he (by simpa using (hde e hel).1)
      | error => exact absurd he (by simpa using (hde e hel).2)

/-- Positions forwarded by one main.py scan are strictly increasing and
lie in `[i, i + l.length)`. -/
lemma mainScan_bounds : ∀ (l : List Event) (i : Nat),
    List.Pairwise (· < ·) ((mainScan l i).map Prod.fst) ∧
    (∀ p ∈ mainScan l i, i ≤ p.1 ∧ p.1 < i + l.length) := by
  intro l
  induction l with
  | nil => intro i; simp [mainScan]
  | cons e r ih =>
    intro i
    rw [mainScan]
    by_cases hne : isNullOrEmpty e.data
    · rw [if_pos hne]
      refine ⟨(ih (i + 1)).1, ?_⟩
      intro p hp
      have := (ih (i + 1)).2 p hp
      simp only [List.length_cons]
      omega
    · rw [if_neg hne]
      cases e.type with
      | thinking =>
        refine ⟨?_, ?_⟩
        · rw [List.map_cons, List.pairwise_cons]
          refine ⟨?_, (ih (i + 1)).1⟩
          intro a ha
          obtain ⟨p, hp, rfl⟩ := List.mem_map.mp ha
          have := (ih (i + 1)).2 p hp
          omega
        · intro p hp
          rcases List.mem_cons.mp hp with rfl | hp2
          · simp only [List.length_cons]; omega
          · have := (ih (i + 1)).2 p hp2
            simp only [List.length_cons]
            omega
      | search =>
        refine ⟨?_, ?_⟩
        · rw [List.map_cons, List.pairwise_cons]
          refine ⟨?_, (ih (i + 1)).1⟩
          intro a ha
          obtain ⟨p, hp, rfl⟩ := List.mem_map.mp ha
          have := (ih (i + 1)).2 p hp
          omega
        · intro p hp
          rcases List.mem_cons.mp hp with rfl | hp2
          · simp only [List.length_cons]; omega
          · have := (ih (i + 1)).2 p hp2
            simp only [List.length_cons]
            omega
      | done =>
        refine ⟨by simp, ?_⟩
        intro p hp
        rcases List.mem_singleton.mp hp with rfl
        simp only [List.length_cons]
        omega
      | error =>
        refine ⟨by simp, ?_⟩
        intro p hp
        rcases List.mem_singleton.mp hp with rfl
        simp only [List.length_cons]
        omega

lemma backupScan_append : ∀ (a b : List Event) (i : Nat),
    backupScan (a ++ b) i = backupScan a i ++ backupScan b (i + a.length) := by
  intro a
  induction a with
  | nil => intro b i; simp [backupScan]
  | cons e r ih =>
    intro b i
    show (i, backupWire e) :: backupScan (r ++ b) (i + 1)
      = (i, backupWire e) :: (backupScan r (i + 1) ++ backupScan b (i + (r.length + 1)))
    rw [ih b (i + 1), show i + 1 + r.length = i + (r.length + 1) from by omega]

lemma backupScan_snd : ∀ (l : List Event) (i : Nat),
    (backupScan l i).map Prod.snd = l.map backupWire := by
  intro l
  induction l with
  | nil => intro i; rfl
  | cons e r ih => intro i; simp [backupScan, ih]

lemma backupScan_bounds : ∀ (l : List Event) (i : Nat),
    List.Pairwise (· < ·) ((backupScan l i).map Prod.fst) ∧
    (∀ p ∈ backupScan l i, i ≤ p.1 ∧ p.1 < i + l.length) := by
  intro l
  induction l with
  | nil => intro i; simp [backupScan]
  | cons e r ih =>
    intro i
    rw [backupScan]
    refine ⟨?_, ?_⟩
    · rw [List.map_cons, List.pairwise_cons]
      refine ⟨?_, (ih (i + 1)).1⟩
      intro a ha
      obtain ⟨p, hp, rfl⟩ := List.mem_map.mp ha
      have := (ih (i + 1)).2 p hp
      omega
    · intro p hp
      rcases List.mem_cons.mp hp with rfl | hp2
      · simp only [List.length_cons]; omega
      · have := (ih (i + 1)).2 p hp2
        simp only [List.length_cons]
        omega

lemma dropLast_drop_comm {α : Type} : ∀ (l : List α) (i : Nat),
    (l.drop i).dropLast = l.dropLast.drop i := by
  intro l
  induction l with
  | nil => intro i; simp
  | cons c r ih =>
    intro i
    cases i with
    | zero => simp
    | succ i =>
      rw [List.drop_succ_cons]
      cases r with
      | nil => simp
      | cons d rs =>
        rw [ih i, List.dropLast_cons₂, List.drop_succ_cons]

lemma mem_dropLast_of_pref {α : Type} {l es : List α} (hp : l <+: es) :
    ∀ e ∈ l.dropLast, e ∈ es.dropLast := by
  obtain ⟨t, rfl⟩ := hp
  cases t with
  | nil => simp
  | cons c ts =>
    intro e he
    rw [List.dropLast_append_cons]
    exact List.mem_append_left _ ((List.dropLast_sublist _).subset he)

/-- Folding main.py polls over a legal snapshot sequence ending at the
completed session forwards exactly the whole log, in order, when every
payload is non-empty and only the final event may be `done`/`error`. -/
lemma mainRun_fold (es : List Event)
    (hne : ∀ e ∈ es, isNullOrEmpty e.data = false)
    (hde : ∀ e ∈ es.dropLast, e.type ≠ .done ∧ e.type ≠ .error) :
    ∀ (snaps : List Session) (st : RelayState),
    (∀ s ∈ snaps, s.events <+: es ∧ (s.status = .completed → s.events = es)) →
    SnapChain snaps →
    ((st.finished = true ∧ st.out = wireAll es 0) ∨
     (st.finished = false ∧ st.out = wireAll (es.take st.idx) 0 ∧
       (∀ s, snaps.head? = some s → st.idx ≤ s.events.length))) →
    snaps.getLast? = some ⟨es, .completed⟩ →
    (mainRunFrom snaps st).out = wireAll es 0 ∧
      (mainRunFrom snaps st).finished = true := by
  intro snaps
  induction snaps with
  | nil => intro st _ _ _ hl; simp at hl
  | cons s rest ih =>
    intro st hsn hch hst hl
    have hstep : mainRunFrom (s :: rest) st = mainRunFrom rest (mainPoll s st) := by
      rw [mainRunFrom, List.foldl_cons, mainRunFrom]
    rw [hstep]
    have hs : s.events <+: es ∧ (s.status = .completed → s.events = es) :=
      hsn s (List.mem_cons_self s rest)
    -- the poll result
    rcases hst with ⟨hf, hout⟩ | ⟨hf, hout, hb⟩
    · -- already finished: the poll is a no-op
      have hpoll : mainPoll s st = st := by rw [mainPoll, if_pos hf]
      rw [hpoll]
      cases rest with
      | nil =>
        simp only [mainRunFrom, List.foldl_nil]
        exact ⟨hout, hf⟩
      | cons b rs =>
        refine ih st (fun x hx => hsn x (List.mem_cons_of_mem s hx))
          (List.chain'_cons.mp hch).2 (Or.inl ⟨hf, hout⟩) ?_
        rw [← hl, List.getLast?_cons_cons]
    · -- active: the poll forwards the new tail of the snapshot
      have hidx : st.idx ≤ s.events.length := hb s rfl
      have hm : es.take s.events.length = s.events := by
        have := List.prefix_iff_eq_take.mp hs.1
        exact this.symm
      have hpoll : mainPoll s st =
          { idx := s.events.length
            out := st.out ++ mainScan (s.events.drop st.idx) st.idx
            finished := decide (s.status = .completed) } := by
        rw [mainPoll, if_neg (by simp [hf])]
      have htk : s.events.take st.idx = es.take st.idx := by
        rw [← hm, List.take_take, min_eq_left hidx]
      have hlen_take : (es.take st.idx).length = st.idx := by
        rw [List.length_take]
        have : st.idx ≤ es.length := le_trans hidx hs.1.length_le
        omega
      have hkey : es.take st.idx ++ s.events.drop st.idx = s.events := by
        rw [← htk, List.take_append_drop]
      have hout2 : (mainPoll s st).out = wireAll s.events 0 := by
        rw [hpoll]
        show st.out ++ mainScan (s.events.drop st.idx) st.idx = _
        rw [hout]
        rw [mainScan_all (s.events.drop st.idx) st.idx
          (fun e he => hne e (hs.1.sublist.subset ((List.drop_sublist _ _).subset he)))
          (fun e he => by
            rw [dropLast_drop_comm] at he
            exact hde e (mem_dropLast_of_pref hs.1 e
              ((List.drop_sublist _ _).subset he)))]
        calc wireAll (es.take st.idx) 0 ++ wireAll (s.events.drop st.idx) st.idx
            = wireAll (es.take st.idx) 0
              ++ wireAll (s.events.drop st.idx) (0 + (es.take st.idx).length) := by
              rw [show (0 : Nat) + (es.take st.idx).length = st.idx from by
                rw [hlen_take]; omega]
          _ = wireAll (es.take st.idx ++ s.events.drop st.idx) 0 :=
              (wireAll_append _ _ 0).symm
          _ = wireAll s.events 0 := by rw [hkey]
      have hidx2 : (mainPoll s st).idx = s.events.length := by rw [hpoll]
      cases rest with
      | nil =>
        simp only [mainRunFrom, List.foldl_nil]
        have hse : s = ⟨es, .completed⟩ := by simpa using hl
        constructor
        · rw [hout2, hse]
        · rw [hpoll]
          show decide (s.status = .completed) = true
          rw [hse]
          simp
      | cons b rs =>
        have hch2 := List.chain'_cons.mp hch
        refine ih (mainPoll s st) (fun x hx => hsn x (List.mem_cons_of_mem s hx))
          hch2.2 ?_ (by rw [← hl, List.getLast?_cons_cons])
        by_cases hcomp : s.status = .completed
        · left
          constructor
          · rw [hpoll]
            show decide (s.status = .completed) = true
            simp [hcomp]
          · rw [hout2, hs.2 hcomp]
        · right
          refine ⟨?_, ?_, ?_⟩
          · rw [hpoll]
            show decide (s.status = .completed) = false
            simp [hcomp]
          · rw [hout2, hidx2, hm]
          · intro x hx
            simp only [List.head?_cons, Option.some_inj] at hx
            subst hx
            rw [hidx2]
            have := hch2.1.1
            rw [List.isPrefixOf_iff_prefix] at this
            exact this.length_le

/-- Folding main_backup.py polls over a legal snapshot sequence ending at
the completed session forwards exactly the whole log, in order, with no
side conditions on the events. -/
lemma backupRun_fold (es : List Event) :
    ∀ (snaps : List Session) (st : BRelayState),
    (∀ s ∈ snaps, s.events <+: es ∧ (s.status = .completed → s.events = es)) →
    SnapChain snaps →
    ((st.finished = true ∧ st.out = backupScan es 0) ∨
     (st.finished = false ∧ st.out = backupScan (es.take st.idx) 0 ∧
       (∀ s, snaps.head? = some s → st.idx ≤ s.events.length))) →
    snaps.getLast? = some ⟨es, .completed⟩ →
    (backupRunFrom snaps st).out = backupScan es 0 ∧
      (backupRunFrom snaps st).finished = true := by
  intro snaps
  induction snaps with
  | nil => intro st _ _ _ hl; simp at hl
  | cons s rest ih =>
    intro st hsn hch hst hl
    have hstep : backupRunFrom (s :: rest) st = backupRunFrom rest (backupPoll s st) := by
      rw [backupRunFrom, List.foldl_cons, backupRunFrom]
    rw [hstep]
    have hs : s.events <+: es ∧ (s.status = .completed → s.events = es) :=
      hsn s (List.mem_cons_self s rest)
    rcases hst with ⟨hf, hout⟩ | ⟨hf, hout, hb⟩
    · have hpoll : backupPoll s st = st := by rw [backupPoll, if_pos hf]
      rw [hpoll]
      cases rest with
      | nil =>
        simp only [backupRunFrom, List.foldl_nil]
        exact ⟨hout, hf⟩
      | cons b rs =>
        refine ih st (fun x hx => hsn x (List.mem_cons_of_mem s hx))
          (List.chain'_cons.mp hch).2 (Or.inl ⟨hf, hout⟩) ?_
        rw [← hl, List.getLast?_cons_cons]
    · have hidx : st.idx ≤ s.events.length := hb s rfl
      have hm : es.take s.events.length = s.events :=
        (List.prefix_iff_eq_take.mp hs.1).symm
      have hpoll : backupPoll s st =
          { idx := s.events.length
            out := st.out ++ backupScan (s.events.drop st.idx) st.idx
            finished := decide (s.status = .completed) } := by
        rw [backupPoll, if_neg (by simp [hf])]
      have htk : s.events.take st.idx = es.take st.idx := by
        rw [← hm, List.take_take, min_eq_left hidx]
      have hlen_take : (es.take st.idx).length = st.idx := by
        rw [List.length_take]
        have : st.idx ≤ es.length := le_trans hidx hs.1.length_le
        omega
      have hkey : es.take st.idx ++ s.events.drop st.idx = s.events := by
        rw [← htk, List.take_append_drop]
      have hout2 : (backupPoll s st).out = backupScan s.events 0 := by
        rw [hpoll]
        show st.out ++ backupScan (s.events.drop st.idx) st.idx = _
        rw [hout]
        calc backupScan (es.take st.idx) 0 ++ backupScan (s.events.drop st.idx) st.idx
            = backupScan (es.take st.idx) 0
              ++ backupScan (s.events.drop st.idx) (0 + (es.take st.idx).length) := by
              rw [show (0 : Nat) + (es.take st.idx).length = st.idx from by
                rw [hlen_take]; omega]
          _ = backupScan (es.take st.idx ++ s.events.drop st.idx) 0 :=
              (backupScan_append _ _ 0).symm
          _ = backupScan s.events 0 := by rw [hkey]
      have hidx2 : (backupPoll s st).idx = s.events.length := by rw [hpoll]
      cases rest with
      | nil =>
        simp only [backupRunFrom, List.foldl_nil]
        have hse : s = ⟨es, .completed⟩ := by simpa using hl
        constructor
        · rw [hout2, hse]
        · rw [hpoll]
          show decide (s.status = .completed) = true
          rw [hse]
          simp
      | cons b rs =>
        have hch2 := List.chain'_cons.mp hch
        refine ih (backupPoll s st) (fun x hx => hsn x (List.mem_cons_of_mem s hx))
          hch2.2 ?_ (by rw [← hl, List.getLast?_cons_cons])
        by_cases hcomp : s.status = .completed
        · left
          constructor
          · rw [hpoll]
            show decide (s.status = .completed) = true
            simp [hcomp]
          · rw [hout2, hs.2 hcomp]
        · right
          refine ⟨?_, ?_, ?_⟩
          · rw [hpoll]
            show decide (s.status = .completed) = false
            simp [hcomp]
          · rw [hout2, hidx2, hm]
          · intro x hx
            simp only [List.head?_cons, Option.some_inj] at hx
            subst hx
            rw [hidx2]
            have := hch2.1.1
            rw [List.isPrefixOf_iff_prefix] at this
            exact this.length_le

lemma wireAll_length : ∀ (l : List Event) (i : Nat), (wireAll l i).length = l.length := by
  intro l
  induction l with
  | nil => intro i; rfl
  | cons e r ih => intro i; simp [wireAll, ih]

lemma backupScan_length : ∀ (l : List Event) (i : Nat),
    (backupScan l i).length = l.length := by
  intro l
  induction l with
  | nil => intro i; rfl
  | cons e r ih => intro i; simp [backupScan, ih]

/-! ## Claim C1 -/

/-- Claim C1, as stated, is false for the relay of main.py: after the two
events `error` and `done` have been appended (which is exactly what the
error path of main.py produces) and the session completed, a single
drain forwards only one wire message — the `break` after yielding the
error message skips the `done` event and `last_event_index` jumps past
it.  Two events appended, one message forwarded. -/
theorem C1_counterexample :
    (mainRun [⟨[⟨.error, .str ("boom")⟩, ⟨.done, .obj []⟩], .completed⟩]).out.length = 1 ∧
    ([⟨.error, .str ("boom")⟩, ⟨.done, .obj []⟩] : List Event).length = 2 ∧
    (mainRun [⟨[⟨.error, .str ("boom")⟩, ⟨.done, .obj []⟩], .completed⟩]).finished
      = true := by
  decide

/-- Claim C1 (amended): for every session log of `N` appended events and
every interleaving of appends with atomic relay polls that ends with the
completed session observed (a monotone snapshot sequence), main.py's
relay forwards exactly `N` wire messages in append order provided every
event has a non-empty payload and no event follows the first
`done`/`error` event in the log; main_backup.py's relay forwards exactly
`N` messages in append order with no side conditions.  (In general
main.py's relay skips empty-payload events and drops events appended
after a `done`/`error` event, as the counterexample shows.) -/
theorem C1_theorem :
    (∀ (es : List Event) (snaps : List Session),
      SnapChain snaps →
      snaps.getLast? = some ⟨es, .completed⟩ →
      (∀ e ∈ es, isNullOrEmpty e.data = false) →
      (∀ e ∈ es.dropLast, e.type ≠ .done ∧ e.type ≠ .error) →
      (mainRun snaps).out.map Prod.snd = es.map mainWire ∧
      (mainRun snaps).out.length = es.length ∧
      (mainRun snaps).finished = true) ∧
    (∀ (es : List Event) (snaps : List Session),
      SnapChain snaps →
      snaps.getLast? = some ⟨es, .completed⟩ →
      (backupRun snaps).out.map Prod.snd = es.map backupWire ∧
      (backupRun snaps).out.length = es.length ∧
      (backupRun snaps).finished = true) := by
  constructor
  · intro es snaps hch hl hne hde
    have hsn : ∀ s ∈ snaps, s.events <+: es ∧ (s.status = .completed → s.events = es) := by
      intro s hs
      have hstep := snap_le_last snaps ⟨es, .completed⟩ hch hl s hs
      refine ⟨?_, ?_⟩
      · have := hstep.1
        rw [List.isPrefixOf_iff_prefix] at this
        exact this
      · intro hc
        exact ((hstep.2 hc).2).symm
    have := mainRun_fold es hne hde snaps initRelay hsn hch
      (Or.inr ⟨rfl, rfl, fun s _ => Nat.zero_le _⟩) hl
    refine ⟨?_, ?_, this.2⟩
    · rw [show mainRun snaps = mainRunFrom snaps initRelay from rfl, this.1, wireAll_snd]
    · rw [show mainRun snaps = mainRunFrom snaps initRelay from rfl, this.1, wireAll_length]
  · intro es snaps hch hl
    have hsn : ∀ s ∈ snaps, s.events <+: es ∧ (s.status = .completed → s.events = es) := by
      intro s hs
      have hstep := snap_le_last snaps ⟨es, .completed⟩ hch hl s hs
      refine ⟨?_, ?_⟩
      · have := hstep.1
        rw [List.isPrefixOf_iff_prefix] at this
        exact this
      · intro hc
        exact ((hstep.2 hc).2).symm
    have := backupRun_fold es snaps initBRelay hsn hch
      (Or.inr ⟨rfl, rfl, fun s _ => Nat.zero_le _⟩) hl
    refine ⟨?_, ?_, this.2⟩
    · rw [show backupRun snaps = backupRunFrom snaps initBRelay from rfl, this.1,
        backupScan_snd]
    · rw [show backupRun snaps = backupRunFrom snaps initBRelay from rfl, this.1,
        backupScan_length]

/-- Witness for C1: a two-event log (a thinking event, then the `done`
event) observed across two polls is forwarded as exactly two messages in
append order by both relays. -/
theorem C1_witness :
    (mainRun [⟨[⟨.thinking, .str ("a")⟩], .active⟩,
              ⟨[⟨.thinking, .str ("a")⟩, ⟨.done, .obj []⟩], .completed⟩]).out.length = 2 ∧
    (backupRun [⟨[⟨.thinking, .str ("a")⟩], .active⟩,
              ⟨[⟨.thinking, .str ("a")⟩, ⟨.done, .obj []⟩], .completed⟩]).out.length = 2 := by
  constructor
  · exact (C1_theorem.1 [⟨.thinking, .str ("a")⟩, ⟨.done, .obj []⟩]
      [⟨[⟨.thinking, .str ("a")⟩], .active⟩,
       ⟨[⟨.thinking, .str ("a")⟩, ⟨.done, .obj []⟩], .completed⟩]
      (by constructor
          · exact ⟨by decide, by intro h; simp at h⟩
          · exact List.chain'_singleton _)
      (by decide) (by decide) (by decide)).2.1
  · exact (C1_theorem.2 [⟨.thinking, .str ("a")⟩, ⟨.done, .obj []⟩]
      [⟨[⟨.thinking, .str ("a")⟩], .active⟩,
       ⟨[⟨.thinking, .str ("a")⟩, ⟨.done, .obj []⟩], .completed⟩]
      (by constructor
          · exact ⟨by decide, by intro h; simp at h⟩
          · exact List.chain'_singleton _)
      (by decide)).2.1

/-- Relay-state invariants of main.py's poll loop over any legal snapshot
sequence: the forwarded index never decreases, stays bounded by the
observed log length, and forwarded positions are strictly increasing. -/
lemma mainRun_master :
    ∀ (snaps : List Session) (st : RelayState),
    SnapChain snaps →
    (∀ s, snaps.head? = some s → st.idx ≤ s.events.length) →
    (∀ p ∈ st.out, p.1 < st.idx) →
    List.Pairwise (· < ·) (st.out.map Prod.fst) →
    st.idx ≤ (mainRunFrom snaps st).idx ∧
    (∀ p ∈ (mainRunFrom snaps st).out, p.1 < (mainRunFrom snaps st).idx) ∧
    List.Pairwise (· < ·) ((mainRunFrom snaps st).out.map Prod.fst) ∧
    (∀ sl, snaps.getLast? = some sl → (mainRunFrom snaps st).idx ≤ sl.events.length) := by
  intro snaps
  induction snaps with
  | nil =>
    intro st _ _ hout hpw
    exact ⟨le_refl _, hout, hpw, by intro sl h; simp at h⟩
  | cons s rest ih =>
    intro st hch hb hout hpw
    have hstep : mainRunFrom (s :: rest) st = mainRunFrom rest (mainPoll s st) := by
      rw [mainRunFrom, List.foldl_cons, mainRunFrom]
    rw [hstep]
    have hbs : st.idx ≤ s.events.length := hb s rfl
    have hch2 : SnapChain rest := (List.chain'_cons'.mp hch).2
    have hbrest : ∀ (st2 : RelayState), st2.idx ≤ s.events.length →
        (∀ x, rest.head? = some x → st2.idx ≤ x.events.length) := by
      intro st2 h2 x hx
      cases rest with
      | nil => simp at hx
      | cons b rs =>
        simp only [List.head?_cons, Option.some_inj] at hx
        subst hx
        have hsb := (List.chain'_cons.mp hch).1.1
        rw [List.isPrefixOf_iff_prefix] at hsb
        exact le_trans h2 hsb.length_le
    by_cases hf : st.finished = true
    · have hpoll : mainPoll s st = st := by rw [mainPoll, if_pos hf]
      rw [hpoll]
      have := ih st hch2 (hbrest st hbs) hout hpw
      refine ⟨this.1, this.2.1, this.2.2.1, ?_⟩
      intro sl hl
      cases rest with
      | nil =>
        simp only [List.getLast?_singleton, Option.some_inj] at hl
        subst hl
        simpa [mainRunFrom] using hbs
      | cons b rs =>
        rw [List.getLast?_cons_cons] at hl
        exact this.2.2.2 sl hl
    · have hpoll : mainPoll s st =
          { idx := s.events.length
            out := st.out ++ mainScan (s.events.drop st.idx) st.idx
            finished := decide (s.status = .completed) } := by
        rw [mainPoll, if_neg hf]
      have hscan := mainScan_bounds (s.events.drop st.idx) st.idx
      have hlen : st.idx + (s.events.drop st.idx).length = s.events.length := by
        rw [List.length_drop]
        omega
      have hout2 : ∀ p ∈ (mainPoll s st).out, p.1 < (mainPoll s st).idx := by
        rw [hpoll]
        intro p hp
        rcases List.mem_append.mp hp with h1 | h2
        · exact lt_of_lt_of_le (hout p h1) hbs
        · have := (hscan.2 p h2).2
          show p.1 < s.events.length
          omega
      have hpw2 : List.Pairwise (· < ·) ((mainPoll s st).out.map Prod.fst) := by
        rw [hpoll]
        show List.Pairwise (· < ·)
          ((st.out ++ mainScan (s.events.drop st.idx) st.idx).map Prod.fst)
        rw [List.map_append, List.pairwise_append]
        refine ⟨hpw, hscan.1, ?_⟩
        intro a ha b hb2
        obtain ⟨p, hp, rfl⟩ := List.mem_map.mp ha
        obtain ⟨q, hq, rfl⟩ := List.mem_map.mp hb2
        have h1 := hout p hp
        have h2 := (hscan.2 q hq).1
        omega
      have hidx2 : (mainPoll s st).idx = s.events.length := by rw [hpoll]
      have := ih (mainPoll s st) hch2
        (by rw [hidx2]; exact hbrest { st with idx := s.events.length } (le_refl _))
        hout2 hpw2
      refine ⟨le_trans (by rw [hidx2]; exact hbs) this.1, this.2.1, this.2.2.1, ?_⟩
      intro sl hl
      cases rest with
      | nil =>
        simp only [List.getLast?_singleton, Option.some_inj] at hl
        subst hl
        simpa [mainRunFrom, hidx2] using le_refl s.events.length
      | cons b rs =>
        rw [List.getLast?_cons_cons] at hl
        exact this.2.2.2 sl hl

/-- The same relay-state invariants for main_backup.py's poll loop. -/
lemma backupRun_master :
    ∀ (snaps : List Session) (st : BRelayState),
    SnapChain snaps →
    (∀ s, snaps.head? = some s → st.idx ≤ s.events.length) →
    (∀ p ∈ st.out, p.1 < st.idx) →
    List.Pairwise (· < ·) (st.out.map Prod.fst) →
    st.idx ≤ (backupRunFrom snaps st).idx ∧
    (∀ p ∈ (backupRunFrom snaps st).out, p.1 < (backupRunFrom snaps st).idx) ∧
    List.Pairwise (· < ·) ((backupRunFrom snaps st).out.map Prod.fst) ∧
    (∀ sl, snaps.getLast? = some sl →
      (backupRunFrom snaps st).idx ≤ sl.events.length) := by
  intro snaps
  induction snaps with
  | nil =>
    intro st _ _ hout hpw
    exact ⟨le_refl _, hout, hpw, by intro sl h; simp at h⟩
  | cons s rest ih =>
    intro st hch hb hout hpw
    have hstep : backupRunFrom (s :: rest) st = backupRunFrom rest (backupPoll s st) := by
      rw [backupRunFrom, List.foldl_cons, backupRunFrom]
    rw [hstep]
    have hbs : st.idx ≤ s.events.length := hb s rfl
    have hch2 : SnapChain rest := (List.chain'_cons'.mp hch).2
    have hbrest : ∀ (n : Nat), n ≤ s.events.length →
        (∀ x, rest.head? = some x → n ≤ x.events.length) := by
      intro n h2 x hx
      cases rest with
      | nil => simp at hx
      | cons b rs =>
        simp only [List.head?_cons, Option.some_inj] at hx
        subst hx
        have hsb := (List.chain'_cons.mp hch).1.1
        rw [List.isPrefixOf_iff_prefix] at hsb
        exact le_trans h2 hsb.length_le
    by_cases hf : st.finished = true
    · have hpoll : backupPoll s st = st := by rw [backupPoll, if_pos hf]
      rw [hpoll]
      have := ih st hch2 (hbrest st.idx hbs) hout hpw
      refine ⟨this.1, this.2.1, this.2.2.1, ?_⟩
      intro sl hl
      cases rest with
      | nil =>
        simp only [List.getLast?_singleton, Option.some_inj] at hl
        subst hl
        simpa [backupRunFrom] using hbs
      | cons b rs =>
        rw [List.getLast?_cons_cons] at hl
        exact this.2.2.2 sl hl
    · have hpoll : backupPoll s st =
          { idx := s.events.length
            out := st.out ++ backupScan (s.events.drop st.idx) st.idx
            finished := decide (s.status = .completed) } := by
        rw [backupPoll, if_neg hf]
      have hscan := backupScan_bounds (s.events.drop st.idx) st.idx
      have hlen : st.idx + (s.events.drop st.idx).length = s.events.length := by
        rw [List.length_drop]
        omega
      have hout2 : ∀ p ∈ (backupPoll s st).out, p.1 < (backupPoll s st).idx := by
        rw [hpoll]
        intro p hp
        rcases List.mem_append.mp hp with h1 | h2
        · exact lt_of_lt_of_le (hout p h1) hbs
        · have := (hscan.2 p h2).2
          show p.1 < s.events.length
          omega
      have hpw2 : List.Pairwise (· < ·) ((backupPoll s st).out.map Prod.fst) := by
        rw [hpoll]
        show List.Pairwise (· < ·)
          ((st.out ++ backupScan (s.events.drop st.idx) st.idx).map Prod.fst)
        rw [List.map_append, List.pairwise_append]
        refine ⟨hpw, hscan.1, ?_⟩
        intro a ha b hb2
        obtain ⟨p, hp, rfl⟩ := List.mem_map.mp ha
        obtain ⟨q, hq, rfl⟩ := List.mem_map.mp hb2
        have h1 := hout p hp
        have h2 := (hscan.2 q hq).1
        omega
      have hidx2 : (backupPoll s st).idx = s.events.length := by rw [hpoll]
      have := ih (backupPoll s st) hch2
        (by rw [hidx2]; exact hbrest s.events.length (le_refl _))
        hout2 hpw2
      refine ⟨le_trans (by rw [hidx2]; exact hbs) this.1, this.2.1, this.2.2.1, ?_⟩
      intro sl hl
      cases rest with
      | nil =>
        simp only [List.getLast?_singleton, Option.some_inj] at hl
        subst hl
        simpa [backupRunFrom, hidx2] using le_refl s.events.length
      | cons b rs =>
        rw [List.getLast?_cons_cons] at hl
        exact this.2.2.2 sl hl

/-! ## Claim C9 -/

/-- Claim C9: over every interleaving of appends and atomic polls (a
legal snapshot sequence), in both SSE relay loops (main.py and
main_backup.py) the last-forwarded index is monotonically non-decreasing
across poll iterations, never exceeds the length of the session log it
last observed, and the forwarded log positions are strictly increasing —
so no event at a given position is forwarded twice. -/
theorem C9_theorem :
    (∀ (snaps : List Session), SnapChain snaps →
      List.Pairwise (· < ·) ((mainRun snaps).out.map Prod.fst) ∧
      (∀ sl, snaps.getLast? = some sl → (mainRun snaps).idx ≤ sl.events.length) ∧
      (∀ pre suf, snaps = pre ++ suf → (mainRun pre).idx ≤ (mainRun snaps).idx)) ∧
    (∀ (snaps : List Session), SnapChain snaps →
      List.Pairwise (· < ·) ((backupRun snaps).out.map Prod.fst) ∧
      (∀ sl, snaps.getLast? = some sl → (backupRun snaps).idx ≤ sl.events.length) ∧
      (∀ pre suf, snaps = pre ++ suf → (backupRun pre).idx ≤ (backupRun snaps).idx)) := by
  constructor
  · intro snaps hch
    have hmaster := mainRun_master snaps initRelay hch
      (fun s _ => Nat.zero_le _) (by intro p hp; simp [initRelay] at hp) (by simp [initRelay])
    refine ⟨hmaster.2.2.1, hmaster.2.2.2, ?_⟩
    intro pre suf hsplit
    subst hsplit
    have hchpre : SnapChain pre := (List.chain'_append.mp hch).1
    have hchsuf : SnapChain suf := (List.chain'_append.mp hch).2.1
    have hlink := (List.chain'_append.mp hch).2.2
    have hmp := mainRun_master pre initRelay hchpre
      (fun s _ => Nat.zero_le _) (by intro p hp; simp [initRelay] at hp) (by simp [initRelay])
    have hb2 : ∀ x, suf.head? = some x → (mainRun pre).idx ≤ x.events.length := by
      intro x hx
      cases hpre : pre.getLast? with
      | none =>
        have : pre = [] := by
          cases pre with
          | nil => rfl
          | cons a r => simp [List.getLast?_eq_none_iff] at hpre
        rw [this]
        exact Nat.zero_le _
      | some sl =>
        have hstep := hlink sl hpre x hx
        have h1 := hmp.2.2.2 sl hpre
        have h2 := hstep.1
        rw [List.isPrefixOf_iff_prefix] at h2
        exact le_trans h1 h2.length_le
    have := mainRun_master suf (mainRun pre) hchsuf hb2
      hmp.2.1 hmp.2.2.1
    rw [show mainRun (pre ++ suf) = mainRunFrom suf (mainRun pre) from by
      rw [mainRun, mainRunFrom, List.foldl_append]
      rfl]
    exact this.1
  · intro snaps hch
    have hmaster := backupRun_master snaps initBRelay hch
      (fun s _ => Nat.zero_le _) (by intro p hp; simp [initBRelay] at hp)
      (by simp [initBRelay])
    refine ⟨hmaster.2.2.1, hmaster.2.2.2, ?_⟩
    intro pre suf hsplit
    subst hsplit
    have hchpre : SnapChain pre := (List.chain'_append.mp hch).1
    have hchsuf : SnapChain suf := (List.chain'_append.mp hch).2.1
    have hlink := (List.chain'_append.mp hch).2.2
    have hmp := backupRun_master pre initBRelay hchpre
      (fun s _ => Nat.zero_le _) (by intro p hp; simp [initBRelay] at hp)
      (by simp [initBRelay])
    have hb2 : ∀ x, suf.head? = some x → (backupRun pre).idx ≤ x.events.length := by
      intro x hx
      cases hpre : pre.getLast? with
      | none =>
        have : pre = [] := by
          cases pre with
          | nil => rfl
          | cons a r => simp [List.getLast?_eq_none_iff] at hpre
        rw [this]
        exact Nat.zero_le _
      | some sl =>
        have hstep := hlink sl hpre x hx
        have h1 := hmp.2.2.2 sl hpre
        have h2 := hstep.1
        rw [List.isPrefixOf_iff_prefix] at h2
        exact le_trans h1 h2.length_le
    have := backupRun_master suf (backupRun pre) hchsuf hb2
      hmp.2.1 hmp.2.2.1
    rw [show backupRun (pre ++ suf) = backupRunFrom suf (backupRun pre) from by
      rw [backupRun, backupRunFrom, List.foldl_append]
      rfl]
    exact this.1

/-- Witness for C9: on a concrete two-snapshot observation of a two-event
log, the forwarded positions of the main.py relay are strictly
increasing and the final index stays within the log. -/
theorem C9_witness :
    List.Pairwise (· < ·)
      ((mainRun [⟨[⟨.thinking, .str ("a")⟩], .active⟩,
        ⟨[⟨.thinking, .str ("a")⟩, ⟨.done, .obj []⟩], .completed⟩]).out.map Prod.fst) ∧
    (mainRun [⟨[⟨.thinking, .str ("a")⟩], .active⟩,
        ⟨[⟨.thinking, .str ("a")⟩, ⟨.done, .obj []⟩], .completed⟩]).idx
      ≤ ([⟨.thinking, .str ("a")⟩, ⟨.done, .obj []⟩] : List Event).length := by
  have h := C9_theorem.1
    [⟨[⟨.thinking, .str ("a")⟩], .active⟩,
     ⟨[⟨.thinking, .str ("a")⟩, ⟨.done, .obj []⟩], .completed⟩]
    (by constructor
        · exact ⟨by decide, by intro hc; simp at hc⟩
        · exact List.chain'_singleton _)
  exact ⟨h.1, h.2.1 ⟨[⟨.thinking, .str ("a")⟩, ⟨.done, .obj []⟩], .completed⟩ (by decide)⟩

/-! ## Orchestrator session traces

The session mutations performed by `generate_with_o3_research` are append
operations on the event log plus the final status flip.  The provider is
a parameter (`ws` maps a query to web_search results; `turns` lists the
streamed model turns), and an exception raised inside the `try` block is
modelled as an interruption after `k` of its operations with message
`m`. -/

inductive SOp
  | appendE (e : Event)
  | complete
  deriving DecidableEq, Repr

def applyOp (s : Session) : SOp → Session
  | .appendE e => { s with events := s.events ++ [e] }
  | .complete => { s with status := .completed }

def runOps (s : Session) (ops : List SOp) : Session := ops.foldl applyOp s

def freshSession : Session := { events := [], status := .active }

/-- Python `str.split()` — split on whitespace runs, no empty words. -/
def pySplitGo : List Char → List Char → List String
  | [], acc => if acc.isEmpty then [] else [acc.reverse.asString]
  | c :: r, acc =>
    if isPyWsp c then
      if acc.isEmpty then pySplitGo r [] else acc.reverse.asString :: pySplitGo r []
    else pySplitGo r (c :: acc)

def pySplit (l : List Char) : List String := pySplitGo l []

/-- The `thinking_text` f-string of main.py (line 107). -/
def mainThinkingText (info : DefendantInfo) : String :=
  "Analyzing case for " ++ info.name
    ++ "...\n\nConsidering factors:\n- Case: " ++ info.case_number
    ++ "\n- District: " ++ info.district
    ++ "\n\nResearching relevant precedents..."

/-- The `search_queries` list of main.py (lines 117–121). -/
def mainSearchQueries (info : DefendantInfo) : List String :=
  ["First Step Act compassionate release " ++ info.district,
   "FSA motion medical condition precedents",
   "compassionate release success factors 2024"]

/-- The `done` payload of main.py (lines 354–363). -/
def mainDoneData (sid : String) : EData :=
  .obj [("motion_url", "/api/download/" ++ sid ++ "/Motion.pdf"),
        ("memo_url", "/api/download/" ++ sid ++ "/Memo.pdf"),
        ("decl_url", "/api/download/" ++ sid ++ "/Declaration.pdf"),
        ("zip_url", "/api/download/" ++ sid ++ "/motion_packet.zip"),
        ("session_id", sid)]

/-- The session appends performed by the `try` block of main.py
`generate_with_o3_research` when it runs to completion: one thinking
event per whitespace-separated chunk of the thinking text (each chunk
suffixed by a space), then per query a thinking event and a search
event, then the final thinking event. -/
def mainTryOps (info : DefendantInfo)
    (ws : String → List (List (String × String))) : List SOp :=
  (pySplit (mainThinkingText info).toList).map
      (fun c => .appendE ⟨.thinking, .str (c ++ " ")⟩)
    ++ (mainSearchQueries info).flatMap (fun q =>
        [.appendE ⟨.thinking, .str ("\n\nSearching: " ++ q ++ "...")⟩,
         .appendE ⟨.search, .searchP q (ws q)⟩])
    ++ [.appendE ⟨.thinking,
        .str ("\n\nGenerating professional legal documents with case citations and precedent analysis...")⟩]

/-- The whole session trace of main.py `generate_with_o3_research`: on an
exception after `k` operations of the `try` block, the `except` branch
appends the error event and falls through; both paths then append the
`done` event and set the status to completed. -/
def mainGenOps (info : DefendantInfo) (ws : String → List (List (String × String)))
    (sid : String) (interrupt : Option (Nat × String)) : List SOp :=
  (match interrupt with
   | none => mainTryOps info ws
   | some (k, m) =>
     (mainTryOps info ws).take k
       ++ [.appendE ⟨.error, .str ("Generation error: " ++ m)⟩])
  ++ [.appendE ⟨.done, mainDoneData sid⟩, .complete]

/-- The files written by main.py on every path (three PDFs and the ZIP
archive are created after the try/except, with fallback content on the
error path). -/
def mainGenFiles : List String :=
  ["Motion.pdf", "Memo.pdf", "Declaration.pdf", "motion_packet.zip"]

/-- The `final_content` fallback f-string of main.py's `except` branch
(lines 318–328). -/
def mainFallbackContent (info : DefendantInfo) : String :=
  "===MOTION START===\nMotion for " ++ info.name ++ " in case " ++ info.case_number
    ++ "\n===MOTION END===\n\n===MEMO START===\nMemorandum for compassionate release\n===MEMO END===\n\n===DECL START===\nDeclaration from "
    ++ info.name ++ "\n===DECL END==="

/-- The documents main.py produces on the error path. -/
def mainErrorDocs (info : DefendantInfo) : GeneratedDocs :=
  extract_documents (mainFallbackContent info).toList

/-- One streamed model turn observed by main_o3.py: content deltas and
tool calls (web_search queries). -/
structure Turn where
  deltas : List String
  calls : List String
  deriving DecidableEq, Repr

/-- Session appends of one main_o3.py turn: a thinking event per truthy
content delta (`if delta.content:`), then a search event per web_search
tool call. -/
def o3TurnOps (ws : String → List (List (String × String))) (tn : Turn) : List SOp :=
  (tn.deltas.filter (fun d => d ≠ "")).map
      (fun d => .appendE ⟨.thinking, .obj [("content", d)]⟩)
    ++ tn.calls.map (fun q => .appendE ⟨.search, .searchP q (ws q)⟩)

def o3TryOps (ws : String → List (List (String × String)))
    (turns : List Turn) : List SOp :=
  turns.flatMap (o3TurnOps ws)

/-- The `done` payload of main_o3.py (lines 331–339). -/
def o3DoneData (sid : String) : EData :=
  .obj [("motion_url", "/download/" ++ sid ++ "/Motion.pdf"),
        ("memo_url", "/download/" ++ sid ++ "/Memo.pdf"),
        ("decl_url", "/download/" ++ sid ++ "/Declaration.pdf"),
        ("zip_url", "/download/" ++ sid ++ "/motion_packet.zip")]

/-- The whole session trace of main_o3.py `generate_with_o3_research`: on
an exception the `except` branch appends the error event and `return`s —
nothing further happens; otherwise documents are produced and the `done`
event and status flip follow. -/
def o3GenOps (ws : String → List (List (String × String))) (turns : List Turn)
    (sid : String) (interrupt : Option (Nat × String)) : List SOp :=
  match interrupt with
  | none => o3TryOps ws turns ++ [.appendE ⟨.done, o3DoneData sid⟩, .complete]
  | some (k, m) =>
    (o3TryOps ws turns).take k
      ++ [.appendE ⟨.error,
          .str ("Error during O3 reasoning and generation: " ++ m)⟩]

/-- The files written by main_o3.py: none when the `except` branch ran
(it returns before any rendering), the three PDFs and the archive
otherwise. -/
def o3GenFiles (interrupt : Option (Nat × String)) : List String :=
  match interrupt with
  | none => ["Motion.pdf", "Memo.pdf", "Declaration.pdf", "motion_packet.zip"]
  | some _ => []

/-- The event, if any, appended by an operation. -/
def evOf : SOp → Option Event
  | .appendE e => some e
  | .complete => none

lemma runOps_events : ∀ (ops : List SOp) (s : Session),
    (runOps s ops).events = s.events ++ ops.filterMap evOf := by
  intro ops
  induction ops with
  | nil => intro s; simp [runOps]
  | cons op rest ih =>
    intro s
    rw [runOps, List.foldl_cons]
    rw [show List.foldl applyOp (applyOp s op) rest = runOps (applyOp s op) rest from rfl]
    rw [ih]
    cases op with
    | appendE e => simp [applyOp, evOf]
    | complete => simp [applyOp, evOf]

lemma runOps_status : ∀ (ops : List SOp) (s : Session),
    (runOps s ops).status = .completed ↔
      (s.status = .completed ∨ .complete ∈ ops) := by
  intro ops
  induction ops with
  | nil => intro s; simp [runOps]
  | cons op rest ih =>
    intro s
    rw [runOps, List.foldl_cons]
    rw [show List.foldl applyOp (applyOp s op) rest = runOps (applyOp s op) rest from rfl]
    rw [ih]
    cases op with
    | appendE e =>
      simp only [applyOp, List.mem_cons]
      constructor
      · rintro (h | h)
        · exact Or.inl h
        · exact Or.inr (Or.inr h)
      · rintro (h | h | h)
        · exact Or.inl h
        · exact absurd h (by simp)
        · exact Or.inr h
    | complete =>
      simp [applyOp]

/-- If `complete` never occurs before the last operation, a completed
prefix must be the entire trace. -/
lemma prefix_eq_of_complete {ops p : List SOp}
    (hlast : SOp.complete ∉ ops.dropLast) (hp : p <+: ops)
    (hc : SOp.complete ∈ p) : p = ops := by
  have hp2 := List.prefix_iff_eq_take.mp hp
  by_cases hlen : p.length = ops.length
  · rw [hp2, hlen, List.take_length]
  · exfalso
    have hlt : p.length < ops.length := lt_of_le_of_ne hp.length_le hlen
    apply hlast
    have : p = ops.dropLast.take p.length := by
      rw [List.dropLast_eq_take, List.take_take]
      rw [min_eq_left (by omega)]
      exact hp2
    rw [this] at hc
    exact (List.take_subset _ _) hc

/-- Core session invariants of a trace whose only `complete`, if any, is
the final operation: the log only grows, and once completed nothing is
appended and the status never reverts. -/
lemma trace_invariants (ops : List SOp) (hlast : SOp.complete ∉ ops.dropLast)
    (p q : List SOp) (hpq : p <+: q) (hq : q <+: ops) :
    (runOps freshSession p).events <+: (runOps freshSession q).events ∧
    ((runOps freshSession p).status = .completed →
      (runOps freshSession q).status = .completed ∧
      (runOps freshSession q).events = (runOps freshSession p).events) := by
  constructor
  · rw [runOps_events, runOps_events]
    simpa [freshSession] using hpq.filterMap evOf
  · intro hc
    have hcin : SOp.complete ∈ p := by
      rcases (runOps_status p freshSession).mp hc with h | h
      · exact absurd h (by simp [freshSession])
      · exact h
    have hpops : p = ops := prefix_eq_of_complete hlast (hpq.trans hq) hcin
    have hqops : q = ops := by
      have h1 := hpq.length_le
      have h2 := hq.length_le
      rw [hpops] at h1
      have : q.length = ops.length := le_antisymm h2 h1
      rw [List.prefix_iff_eq_take.mp hq, this, List.take_length]
    rw [hpops, hqops]
    exact ⟨by rw [← hpops]; exact hc, rfl⟩

/-- Every operation of main.py's try block appends a thinking or search
event. -/
lemma mainTryOps_shape (info : DefendantInfo)
    (ws : String → List (List (String × String))) :
    ∀ op ∈ mainTryOps info ws,
      ∃ e, op = .appendE e ∧ (e.type = .thinking ∨ e.type = .search) := by
  intro op hop
  rw [mainTryOps] at hop
  rcases List.mem_append.mp hop with h | h
  · rcases List.mem_append.mp h with h1 | h2
    · obtain ⟨c, _, rfl⟩ := List.mem_map.mp h1
      exact ⟨_, rfl, Or.inl rfl⟩
    · obtain ⟨q, _, hq⟩ := List.mem_flatMap.mp h2
      rcases List.mem_cons.mp hq with rfl | hq2
      · exact ⟨_, rfl, Or.inl rfl⟩
      · rcases List.mem_singleton.mp hq2 with rfl
        exact ⟨_, rfl, Or.inr rfl⟩
  · rcases List.mem_singleton.mp h with rfl
    exact ⟨_, rfl, Or.inl rfl⟩

/-- Every operation of main_o3.py's try block appends a thinking or
search event. -/
lemma o3TryOps_shape (ws : String → List (List (String × String)))
    (turns : List Turn) :
    ∀ op ∈ o3TryOps ws turns,
      ∃ e, op = .appendE e ∧ (e.type = .thinking ∨ e.type = .search) := by
  intro op hop
  obtain ⟨tn, _, htn⟩ := List.mem_flatMap.mp hop
  rw [o3TurnOps] at htn
  rcases List.mem_append.mp htn with h1 | h2
  · obtain ⟨d, _, rfl⟩ := List.mem_map.mp h1
    exact ⟨_, rfl, Or.inl rfl⟩
  · obtain ⟨q, _, rfl⟩ := List.mem_map.mp h2
    exact ⟨_, rfl, Or.inr rfl⟩

lemma mainGenOps_complete_last (info : DefendantInfo)
    (ws : String → List (List (String × String))) (sid : String)
    (interrupt : Option (Nat × String)) :
    SOp.complete ∉ (mainGenOps info ws sid interrupt).dropLast := by
  intro hmem
  unfold mainGenOps at hmem
  rw [List.dropLast_append_cons] at hmem
  rcases List.mem_append.mp hmem with h | h
  · cases interrupt with
    | none =>
      obtain ⟨e, he, _⟩ := mainTryOps_shape info ws _ h
      simp at he
    | some km =>
      rcases List.mem_append.mp h with h1 | h2
      · obtain ⟨e, he, _⟩ := mainTryOps_shape info ws _ ((List.take_subset _ _) h1)
        simp at he
      · rcases List.mem_singleton.mp h2 with h3
        simp at h3
  · simp at h

lemma o3GenOps_complete_last (ws : String → List (List (String × String)))
    (turns : List Turn) (sid : String) (interrupt : Option (Nat × String)) :
    SOp.complete ∉ (o3GenOps ws turns sid interrupt).dropLast := by
  intro hmem
  cases interrupt with
  | none =>
    unfold o3GenOps at hmem
    rw [List.dropLast_append_cons] at hmem
    rcases List.mem_append.mp hmem with h | h
    · obtain ⟨e, he, _⟩ := o3TryOps_shape ws turns _ h
      simp at he
    · simp at h
  | some km =>
    unfold o3GenOps at hmem
    rw [List.dropLast_concat] at hmem
    obtain ⟨e, he, _⟩ := o3TryOps_shape ws turns _ ((List.take_subset _ _) hmem)
    simp at he

/-! ## Claim C2 -/

/-- Claim C2: in the session traces of `generate_with_o3_research` of
main.py and of main_o3.py — for every provider behaviour, every model
turn sequence, and every possible exception point — the event log only
grows (events are appended, never removed or mutated, as witnessed by
the prefix relation between any two trace points), the status flips from
active to completed at most once (once completed it stays completed),
and no event is appended after the status becomes completed. -/
theorem C2_theorem (info : DefendantInfo)
    (ws : String → List (List (String × String))) (sid : String)
    (interrupt : Option (Nat × String)) (turns : List Turn) (p q : List SOp) :
    (p <+: q → q <+: mainGenOps info ws sid interrupt →
      (runOps freshSession p).events <+: (runOps freshSession q).events ∧
      ((runOps freshSession p).status = .completed →
        (runOps freshSession q).status = .completed ∧
        (runOps freshSession q).events = (runOps freshSession p).events)) ∧
    (p <+: q → q <+: o3GenOps ws turns sid interrupt →
      (runOps freshSession p).events <+: (runOps freshSession q).events ∧
      ((runOps freshSession p).status = .completed →
        (runOps freshSession q).status = .completed ∧
        (runOps freshSession q).events = (runOps freshSession p).events)) :=
  ⟨fun h1 h2 => trace_invariants _ (mainGenOps_complete_last info ws sid interrupt) p q h1 h2,
   fun h1 h2 => trace_invariants _ (o3GenOps_complete_last ws turns sid interrupt) p q h1 h2⟩

/-- Witness for C2: concrete instantiation, comparing the empty trace
prefix with the full main.py trace on default inputs. -/
theorem C2_witness :
    (runOps freshSession []).events <+:
      (runOps freshSession (mainGenOps {} (fun _ => []) ("s") none)).events ∧
    ((runOps freshSession []).status = .completed →
      (runOps freshSession (mainGenOps {} (fun _ => []) ("s") none)).status = .completed ∧
      (runOps freshSession (mainGenOps {} (fun _ => []) ("s") none)).events
        = (runOps freshSession []).events) :=
  (C2_theorem {} (fun _ => []) ("s") none [] []
    (mainGenOps {} (fun _ => []) ("s") none)).1
    List.nil_prefix (List.prefix_refl _)

/-! ## Claim C3 -/

/-- Claim C3, as stated, is false for main.py: on a provider failure
(exception at the very start of the try block, message `"boom"`) an
error event is appended, but processing is not aborted — the fallback
content is rendered, the three PDFs and the archive are still produced,
a `done` event follows the error event, and the session completes. -/
theorem C3_counterexample :
    ((⟨.error, .str ("Generation error: boom")⟩ : Event)
        ∈ (runOps freshSession (mainGenOps {} (fun _ => []) ("s")
            (some (0, "boom")))).events) ∧
    (runOps freshSession (mainGenOps {} (fun _ => []) ("s")
        (some (0, "boom")))).status = .completed ∧
    (runOps freshSession (mainGenOps {} (fun _ => []) ("s")
        (some (0, "boom")))).events.getLast? = some ⟨.done, mainDoneData ("s")⟩ ∧
    mainGenFiles ≠ [] := by
  decide

/-- Claim C3 (amended): on a provider failure (an exception after any
`k` operations of the try block, with any message `m`), an error event
is appended to the session log in both variants.  In main_o3.py
processing is then aborted: the session never completes, no `done` event
exists, and no documents are produced.  In main.py, however, fallback
documents are still rendered (three PDFs and the archive), a `done`
event is appended after the error event, and the session completes. -/
theorem C3_theorem (info : DefendantInfo)
    (ws : String → List (List (String × String))) (sid : String)
    (k : Nat) (m : String) (turns : List Turn) :
    ((⟨.error, .str ("Error during O3 reasoning and generation: " ++ m)⟩ : Event)
        ∈ (runOps freshSession (o3GenOps ws turns sid (some (k, m)))).events) ∧
    (runOps freshSession (o3GenOps ws turns sid (some (k, m)))).status ≠ .completed ∧
    o3GenFiles (some (k, m)) = [] ∧
    (∀ e ∈ (runOps freshSession (o3GenOps ws turns sid (some (k, m)))).events,
      e.type ≠ .done) ∧
    ((⟨.error, .str ("Generation error: " ++ m)⟩ : Event)
        ∈ (runOps freshSession (mainGenOps info ws sid (some (k, m)))).events) ∧
    (runOps freshSession (mainGenOps info ws sid (some (k, m)))).status = .completed ∧
    (runOps freshSession (mainGenOps info ws sid (some (k, m)))).events.getLast?
      = some ⟨.done, mainDoneData sid⟩ ∧
    mainGenFiles = ["Motion.pdf", "Memo.pdf", "Declaration.pdf", "motion_packet.zip"] := by
  refine ⟨?_, ?_, rfl, ?_, ?_, ?_, ?_, rfl⟩
  · rw [runOps_events]
    show _ ∈ freshSession.events ++ _
    rw [show freshSession.events = [] from rfl, List.nil_append]
    unfold o3GenOps
    rw [List.filterMap_append]
    exact List.mem_append_right _ (by simp [evOf])
  · intro h
    rcases (runOps_status _ _).mp h with h1 | h1
    · exact absurd h1 (by simp [freshSession])
    · unfold o3GenOps at h1
      rcases List.mem_append.mp h1 with h2 | h2
      · obtain ⟨e, he, _⟩ := o3TryOps_shape ws turns _ ((List.take_subset _ _) h2)
        simp at he
      · simp at h2
  · intro e he
    rw [runOps_events] at he
    rw [show freshSession.events = [] from rfl, List.nil_append] at he
    obtain ⟨op, hop, hev⟩ := List.mem_filterMap.mp he
    unfold o3GenOps at hop
    rcases List.mem_append.mp hop with h2 | h2
    · obtain ⟨e2, rfl, hty⟩ := o3TryOps_shape ws turns _ ((List.take_subset _ _) h2)
      simp only [evOf, Option.some_inj] at hev
      subst hev
      rcases hty with h | h <;> simp [h]
    · rcases List.mem_singleton.mp h2 with rfl
      simp only [evOf, Option.some_inj] at hev
      subst hev
      simp
  · rw [runOps_events]
    show _ ∈ freshSession.events ++ _
    rw [show freshSession.events = [] from rfl, List.nil_append]
    unfold mainGenOps
    rw [List.filterMap_append, List.filterMap_append]
    exact List.mem_append_left _ (List.mem_append_right _ (by simp [evOf]))
  · refine (runOps_status _ _).mpr (Or.inr ?_)
    unfold mainGenOps
    exact List.mem_append_right _ (by simp)
  · rw [runOps_events]
    rw [show freshSession.events = [] from rfl, List.nil_append]
    unfold mainGenOps
    rw [List.filterMap_append]
    rw [show ([SOp.appendE ⟨.done, mainDoneData sid⟩, SOp.complete]).filterMap evOf
        = [⟨.done, mainDoneData sid⟩] from by simp [evOf]]
    exact List.getLast?_concat _

/-! ## web_search (claim C10) and the model fallback (claim C8)

The external HTTP/model behaviour is a parameter: `FetchOutcome` is what
the search request produced (parsed item list, or an exception anywhere
in the request/decoding), and `provider` maps a model identifier to the
outcome of `openai_client.chat.completions.create(model=...)`. -/

inductive FetchOutcome
  | ok (items : List (List (String × String)))
  | exn (msg : String)
  deriving DecidableEq, Repr

/-- Python `item.get(key, "")`. -/
def getD (kvs : List (String × String)) (k : String) : String :=
  match kvs.lookup k with
  | some v => v
  | none => ""

/-- ai_utils.py `web_search` (lines 18–46): on success each item becomes
a `title`/`url`/`snippet` record; on any exception the single error
record is returned.  (The `num = min(k, 10)` request parameter only
affects the external call, which is part of the outcome.) -/
def web_search_ai (o : FetchOutcome) : List (List (String × String)) :=
  match o with
  | .ok items => items.map (fun item =>
      [("title", getD item ("title")),
       ("url", getD item ("link")),
       ("snippet", getD item ("snippet"))])
  | .exn e => [[("title", "Search Error: " ++ e), ("url", ""), ("snippet", "")]]

/-- main_o3.py `web_search` (lines 108–136): identical structure, but the
URL-bearing key is `link`, in the success records and in the error
record. -/
def web_search_o3 (o : FetchOutcome) : List (List (String × String)) :=
  match o with
  | .ok items => items.map (fun item =>
      [("title", getD item ("title")),
       ("link", getD item ("link")),
       ("snippet", getD item ("snippet"))])
  | .exn e => [[("title", "Search Error: " ++ e), ("link", ""), ("snippet", "")]]

/-! ## Claim C10 -/

/-- Claim C10, as stated, is false for the `web_search` of main_o3.py:
its failure record has no `url` field at all — the URL-bearing field is
named `link`. -/
theorem C10_counterexample :
    ((web_search_o3 (.exn ("x"))).headD []).lookup ("url") = none ∧
    ((web_search_o3 (.exn ("x"))).headD []).lookup ("link") = some ("") := by
  decide

/-- Claim C10 (amended): both `web_search` variants are total — for every
query and provider outcome, including any exception raised by the HTTP
client or response decoding, they return a list of result records and
never raise (on success, the mapped item list).  On failure the returned
list is a single record whose title starts with `"Search Error:"` and
whose remaining fields are empty strings — named `url`/`snippet` in
ai_utils.py but `link`/`snippet` in main_o3.py. -/
theorem C10_theorem (o : FetchOutcome) :
    (∀ items, o = .ok items →
      web_search_ai o = items.map (fun item =>
        [("title", getD item ("title")), ("url", getD item ("link")),
         ("snippet", getD item ("snippet"))]) ∧
      web_search_o3 o = items.map (fun item =>
        [("title", getD item ("title")), ("link", getD item ("link")),
         ("snippet", getD item ("snippet"))])) ∧
    (∀ e, o = .exn e →
      (web_search_ai o).length = 1 ∧
      (∃ tl, ((web_search_ai o).headD []).lookup ("title") = some tl ∧
        ("Search Error:".toList) <+: tl.toList) ∧
      ((web_search_ai o).headD []).lookup ("url") = some ("") ∧
      ((web_search_ai o).headD []).lookup ("snippet") = some ("") ∧
      (web_search_o3 o).length = 1 ∧
      (∃ tl, ((web_search_o3 o).headD []).lookup ("title") = some tl ∧
        ("Search Error:".toList) <+: tl.toList) ∧
      ((web_search_o3 o).headD []).lookup ("link") = some ("") ∧
      ((web_search_o3 o).headD []).lookup ("snippet") = some ("")) := by
  constructor
  · rintro items rfl
    exact ⟨rfl, rfl⟩
  · rintro e rfl
    have hpre : ("Search Error:".toList) <+: ("Search Error: " ++ e).toList := by
      rw [show ("Search Error: " ++ e).toList
          = ("Search Error: ".toList) ++ e.toList from rfl]
      exact List.IsPrefix.trans (by decide) (List.prefix_append _ _)
    refine ⟨rfl, ⟨"Search Error: " ++ e, rfl, hpre⟩, rfl, rfl,
      rfl, ⟨"Search Error: " ++ e, rfl, hpre⟩, rfl, rfl⟩

/-- Witness for C10: a concrete failed fetch. -/
theorem C10_witness :
    (web_search_ai (.exn ("HTTP 500"))).length = 1 ∧
    ((web_search_ai (.exn ("HTTP 500"))).headD []).lookup ("url") = some ("") :=
  ⟨((C10_theorem (.exn ("HTTP 500"))).2 ("HTTP 500") rfl).1,
   ((C10_theorem (.exn ("HTTP 500"))).2 ("HTTP 500") rfl).2.2.1⟩

/-! ## The o3 → gpt-4o fallback (claim C8) -/

inductive Model
  | o3 | gpt4o
  deriving DecidableEq, Repr

/-- The request phase of ai_utils.py `stream_o3_completion` (lines
73–117): with no configured client, an error event and no attempt; else
try `"o3"`, on exception retry once with `"gpt-4o"`, and only if that
also raises put the error event.  Returns the models attempted and the
error events emitted by this phase (the subsequent streaming loop
appends only thinking events). -/
def stream_o3_completion (client : Bool)
    (provider : Model → Except String String) : List Model × List Event :=
  if !client then
    ([], [⟨.error, .str ("OpenAI API key not configured. Please provide your OpenAI API key to enable AI document generation.")⟩])
  else
    match provider .o3 with
    | .ok _ => ([.o3], [])
    | .error _ =>
      match provider .gpt4o with
      | .ok _ => ([.o3, .gpt4o], [])
      | .error e2 => ([.o3, .gpt4o], [⟨.error, .str ("OpenAI API error: " ++ e2)⟩])

/-- The inner try of main_backup.py `generate_with_o3_research` (lines
256–277): try `"o3"`, on exception request `"gpt-4o"`; a failure of the
fallback propagates to the outer except. -/
def backupModelRequest (provider : Model → Except String String) :
    List Model × Except String String :=
  match provider .o3 with
  | .ok r => ([.o3], .ok r)
  | .error _ => ([.o3, .gpt4o], provider .gpt4o)

/-- The outer except of main_backup.py appends this error event when the
request phase raised. -/
def backupErrorEvents (result : Except String String) : List Event :=
  match result with
  | .ok _ => []
  | .error e => [⟨.error, .str ("Error during O3 reasoning and generation: " ++ e)⟩]

/-- The model request of main_o3.py `generate_with_o3_research` (lines
210–219): a single `"o3"` attempt with no fallback; an exception goes
straight to the outer except, which appends the error event and
returns. -/
def o3ModelRequest (provider : Model → Except String String) :
    List Model × Except String String :=
  ([.o3], provider .o3)

/-! ## Claim C8 -/

/-- Claim C8, as stated, is false for main_o3.py: with a provider that
rejects `"o3"` but would accept `"gpt-4o"`, its orchestrator makes no
second attempt — `"gpt-4o"` is never requested — and the error is
surfaced (the outer except appends the error event) although only one
attempt failed. -/
theorem C8_counterexample :
    (o3ModelRequest (fun mo => match mo with
      | .o3 => .error ("o3 rejected")
      | .gpt4o => .ok ("resp"))).1 = [.o3] ∧
    Model.gpt4o ∉ (o3ModelRequest (fun mo => match mo with
      | .o3 => .error ("o3 rejected")
      | .gpt4o => .ok ("resp"))).1 ∧
    (o3ModelRequest (fun mo => match mo with
      | .o3 => .error ("o3 rejected")
      | .gpt4o => .ok ("resp"))).2 = .error ("o3 rejected") ∧
    (fun mo => match mo with
      | Model.o3 => Except.error ("o3 rejected")
      | Model.gpt4o => Except.ok ("resp")) Model.gpt4o = .ok ("resp") := by
  refine ⟨rfl, ?_, rfl, rfl⟩
  intro hmem
  exact Model.noConfusion (List.mem_singleton.mp hmem)

/-- Claim C8 (amended): when the provider rejects the primary model
`"o3"`, `ai_utils.stream_o3_completion` (with a configured client) and
main_backup.py's orchestrator retry exactly once with `"gpt-4o"` and
surface an error event only when that attempt also fails; main_o3.py's
orchestrator, however, has no fallback — it makes the single `"o3"`
attempt and surfaces the error event on its failure alone. -/
theorem C8_theorem (provider : Model → Except String String) (e : String)
    (h : provider .o3 = .error e) :
    (stream_o3_completion true provider).1 = [.o3, .gpt4o] ∧
    ((stream_o3_completion true provider).2 ≠ [] ↔
      ∃ e2, provider .gpt4o = .error e2) ∧
    (backupModelRequest provider).1 = [.o3, .gpt4o] ∧
    (backupErrorEvents (backupModelRequest provider).2 ≠ [] ↔
      ∃ e2, provider .gpt4o = .error e2) ∧
    (o3ModelRequest provider).1 = [.o3] ∧
    (o3ModelRequest provider).2 = .error e := by
  have hbm : backupModelRequest provider = ([.o3, .gpt4o], provider .gpt4o) := by
    show (match provider .o3 with
      | .ok r => ([Model.o3], Except.ok r)
      | .error _ => ([Model.o3, Model.gpt4o], provider .gpt4o)) = _
    rw [h]
  cases hg : provider .gpt4o with
  | ok r =>
    have hs : stream_o3_completion true provider = ([.o3, .gpt4o], []) := by
      show (match provider .o3 with
        | .ok _ => ([Model.o3], ([] : List Event))
        | .error _ =>
          match provider .gpt4o with
          | .ok _ => ([Model.o3, Model.gpt4o], [])
          | .error e2 => ([Model.o3, Model.gpt4o],
              [⟨.error, .str ("OpenAI API error: " ++ e2)⟩])) = _
      rw [h, hg]
    refine ⟨by rw [hs], ?_, by rw [hbm], ?_, rfl, h⟩
    · rw [hs]
      constructor
      · intro hne
        exact absurd rfl hne
      · rintro ⟨e2, he2⟩
        simp at he2
    · rw [hbm, hg]
      constructor
      · intro hne
        exact absurd rfl hne
      · rintro ⟨e2, he2⟩
        simp at he2
  | error e2 =>
    have hs : stream_o3_completion true provider
        = ([.o3, .gpt4o], [⟨.error, .str ("OpenAI API error: " ++ e2)⟩]) := by
      show (match provider .o3 with
        | .ok _ => ([Model.o3], ([] : List Event))
        | .error _ =>
          match provider .gpt4o with
          | .ok _ => ([Model.o3, Model.gpt4o], [])
          | .error e3 => ([Model.o3, Model.gpt4o],
              [⟨.error, .str ("OpenAI API error: " ++ e3)⟩])) = _
      rw [h, hg]
    refine ⟨by rw [hs], ?_, by rw [hbm], ?_, rfl, h⟩
    · rw [hs]
      constructor
      · intro _
        exact ⟨e2, rfl⟩
      · intro _
        simp
    · rw [hbm, hg]
      constructor
      · intro _
        exact ⟨e2, rfl⟩
      · intro _
        simp [backupErrorEvents]

/-- Witness for C8: with a provider failing on both models, ai_utils
attempts o3 then gpt-4o, while main_o3.py attempts only o3. -/
theorem C8_witness :
    (stream_o3_completion true (fun _ => Except.error ("down"))).1
      = [.o3, .gpt4o] ∧
    (o3ModelRequest (fun _ => Except.error ("down"))).1 = [.o3] :=
  ⟨(C8_theorem (fun _ => Except.error ("down")) ("down") rfl).1,
   (C8_theorem (fun _ => Except.error ("down")) ("down") rfl).2.2.2.2.1⟩

/-- Witness for C3: at a concrete interrupted run, the o3 variant holds
the error event and nothing of type done, while files are produced only
by main.py. -/
theorem C3_witness :
    ((⟨.error, .str ("Error during O3 reasoning and generation: boom")⟩ : Event)
        ∈ (runOps freshSession (o3GenOps (fun _ => []) [] ("s")
            (some (0, "boom")))).events) ∧
    ((⟨.error, .str ("Error during O3 reasoning and generation: boom")⟩ : Event).type
        ≠ EType.done) ∧
    o3GenFiles (some (0, "boom")) = [] :=
  ⟨(C3_theorem {} (fun _ => []) ("s") 0 ("boom") []).1,
   (C3_theorem {} (fun _ => []) ("s") 0 ("boom") []).2.2.2.1
     ⟨.error, .str ("Error during O3 reasoning and generation: boom")⟩
     (C3_theorem {} (fun _ => []) ("s") 0 ("boom") []).1,
   (C3_theorem {} (fun _ => []) ("s") 0 ("boom") []).2.2.1⟩
